import Mathlib

/-!
Verification of the scheduling and job-execution subsystem of the ESL home
hub (`src/app.py`): configuration loading with defaulting, the bounded run
log with its legacy migration, the execution wrapper `run_job`, and the
schedule planner `reschedule_all`.

The embedding is shallow.  JSON documents produced by `json.load` are
modelled by the inductive `J` (numbers are modelled as integers; no claim
involves fractional values).  Python dicts are association lists with
first-occurrence lookup, which matches the unique-key dicts `json.load`
produces.  A persisted file is `missing`, `corrupt` (present but
`json.load` raises), or `json v` (present and parsed as `v`).  Fallible
Python code is modelled in `Except Unit`; the current wall-clock instant
is passed explicitly where the source calls `datetime.datetime.now()`.
-/

namespace EslHub

/-- JSON-like values, the results of Python's `json.load`. -/
inductive J where
  | null
  | bool (b : Bool)
  | num (n : Int)
  | str (s : String)
  | arr (xs : List J)
  | obj (kvs : List (String × J))

/-- A Python dict with string keys, as produced by `json.load`. -/
abbrev Dict := List (String × J)

/-- `d.get(k)` / `k in d` lookup: the value at the first occurrence of `k`. -/
def dGet (kvs : Dict) (k : String) : Option J :=
  match kvs with
  | [] => none
  | (k', v) :: rest => if k' = k then some v else dGet rest k

/-- Python `k in d` for a dict. -/
def dHasKey (kvs : Dict) (k : String) : Bool :=
  (dGet kvs k).isSome

/-- Python `d[k] = v`: update the existing key in place, else append. -/
def dSet (kvs : Dict) (k : String) (v : J) : Dict :=
  match kvs with
  | [] => [(k, v)]
  | (k', v') :: rest => if k' = k then (k, v) :: rest else (k', v') :: dSet rest k v

/-- A persisted file as seen through `os.path.exists` + `json.load`:
absent, present but unparseable (`json.load` raises), or parsed. -/
inductive File where
  | missing
  | corrupt
  | json (j : J)

/-- The `defaults` dict of `load_config` in `src/app.py`, with each feed's
field list kept in source order. -/
def defaultFeeds : List (String × Dict) :=
  [ ("dota",
      [("enabled", J.bool false), ("mode", J.str "interval"), ("interval", J.num 15),
       ("times", J.arr [J.str "08:00"]), ("days", J.num 1)]),
    ("weather",
      [("enabled", J.bool false), ("mode", J.str "interval"), ("interval", J.num 30),
       ("times", J.arr [J.str "10:00", J.str "14:00"]), ("days", J.num 1)]),
    ("fitness",
      [("enabled", J.bool false), ("mode", J.str "interval"), ("interval", J.num 60),
       ("times", J.arr [J.str "22:00"]), ("days", J.num 1)]),
    ("energy",
      [("enabled", J.bool false), ("mode", J.str "interval"), ("interval", J.num 60),
       ("times", J.arr [J.str "08:00"]), ("days", J.num 3)]),
    ("system",
      [("gateway_ip", J.str "192.168.220.206"), ("store_code", J.str "")]) ]

/-- The `defaults` dict as a JSON document. -/
def defaults : Dict := defaultFeeds.map (fun p => (p.1, J.obj p.2))

/-- Does the character list `s` start with `sub`? (helper for Python's
substring containment on strings). -/
def leadsWith : List Char → List Char → Bool
  | [], _ => true
  | _ :: _, [] => false
  | a :: as, b :: bs => a = b && leadsWith as bs

/-- Python `sub in s` for strings: substring containment. -/
def hasSub (sub s : List Char) : Bool :=
  match s with
  | [] => sub.isEmpty
  | _ :: rest => leadsWith sub s || hasSub sub rest

/-- The inner defaulting loop of `load_config` for one known key:
`for k, v in val.items(): if k not in data[key]: data[key][k] = v`.
When the stored value is a dict, missing fields are appended; when it is a
string or a list, Python's `in` still works but the first assignment of a
missing field raises `TypeError`; on any other value `in` itself raises. -/
def mergeFeed (dflt : Dict) (cur : J) : Except Unit J :=
  match cur with
  | J.obj m =>
      .ok (J.obj (dflt.foldl (fun acc q => if dHasKey acc q.1 then acc else acc ++ [q]) m))
  | J.str s =>
      if dflt.all (fun q => hasSub q.1.data s.data) then .ok (J.str s) else .error ()
  | J.arr xs =>
      if dflt.all (fun q => xs.any (fun x => match x with | J.str t => t = q.1 | _ => false))
      then .ok (J.arr xs) else .error ()
  | _ => .error ()

/-- `load_config` of `src/app.py`.  A missing file yields the defaults;
an unparseable file propagates the `json.load` error (there is no
try/except here); a parsed non-dict document raises at the first merge
step (`data[key] = val` or `data[key][k]` on a non-dict).  For a dict
document, each known key is defaulted whole if absent, and field-wise
defaulted through `mergeFeed` if present. -/
def load_config (f : File) : Except Unit Dict :=
  match f with
  | .missing => .ok defaults
  | .corrupt => .error ()
  | .json (J.obj data) =>
      defaultFeeds.foldlM
        (fun acc p =>
          match dGet acc p.1 with
          | none => .ok (acc ++ [(p.1, J.obj p.2)])
          | some cur => (mergeFeed p.2 cur).map (fun merged => dSet acc p.1 merged))
        data
  | .json _ => .error ()

/-- The migration step of `load_logs` for one stored entry: a bare string
is upgraded to a structured record; anything else passes through. -/
def upgradeEntry (e : J) : J :=
  match e with
  | J.str s =>
      J.obj [("time", J.str s), ("status", J.str "Legacy"),
             ("output", J.str "No details available.")]
  | _ => e

/-- The migration loop of `load_logs` over one feed's stored value.
On a list every bare-string entry is upgraded in place.  On a nonempty
string the first upgrade assignment raises `TypeError` (caught by the
bare `except`); an empty string or empty dict is left untouched because
the loop body never runs.  On a nonempty dict the source would insert
integer-keyed upgraded copies of the keys, which a JSON-valued model
cannot represent; the string-keyed content is unchanged and no theorem
depends on that case.  Other values raise `TypeError` at `enumerate`. -/
def migrateFeed (v : J) : Except Unit J :=
  match v with
  | J.arr xs => .ok (J.arr (xs.map upgradeEntry))
  | J.str s => if s.isEmpty then .ok (J.str s) else .error ()
  | J.obj m => .ok (J.obj m)
  | _ => .error ()

/-- The value `load_logs` returns when the file is missing or anything in
the read raises. -/
def emptyLogs : J :=
  J.obj [("dota", J.arr []), ("weather", J.arr []),
         ("fitness", J.arr []), ("energy", J.arr [])]

/-- `load_logs` of `src/app.py`.  Missing file, unparseable file, or any
error during the migration loop (the bare `except`) yields the four empty
feeds.  A parsed dict has each feed's entry list migrated.  A parsed
empty list or empty string is returned as-is (the `for k in logs` loop
bodies never run); any other non-dict document raises inside the `try`
and is caught. -/
def load_logs (f : File) : J :=
  match f with
  | .missing => emptyLogs
  | .corrupt => emptyLogs
  | .json (J.obj kvs) =>
      match kvs.foldlM (fun acc p => (migrateFeed p.2).map (fun v => acc ++ [(p.1, v)]))
          ([] : Dict) with
      | .ok kvs' => J.obj kvs'
      | .error _ => emptyLogs
  | .json (J.arr xs) => if xs.isEmpty then J.arr xs else emptyLogs
  | .json (J.str s) => if s.isEmpty then J.str s else emptyLogs
  | .json _ => emptyLogs

/-- A run-log entry as written by `log_run`. -/
def mkEntry (ts status output : String) : J :=
  J.obj [("time", J.str ts), ("status", J.str status), ("output", J.str output)]

/-- `log_run` of `src/app.py`.  Loads the current log, ensures the feed
has a list, inserts the new entry at the front, truncates to 10 entries,
and persists the whole structure.  The timestamp string (the source's
`datetime.datetime.now().strftime(...)`) is passed in as `ts`.  When the
loaded log is not a dict, or the feed's migrated value is not a list,
the corresponding `logs[job_name] = []` / `.insert` raises (uncaught). -/
def log_run (job_name status output ts : String) (f : File) : Except Unit File :=
  match load_logs f with
  | J.obj kvs =>
      let kvs1 := if dHasKey kvs job_name then kvs else kvs ++ [(job_name, J.arr [])]
      match dGet kvs1 job_name with
      | some (J.arr xs) =>
          .ok (File.json (J.obj
            (dSet kvs1 job_name (J.arr ((mkEntry ts status output :: xs).take 10)))))
      | _ => .error ()
  | _ => .error ()

/-- The migrated entry list `read_all`/`load_logs` exposes for one feed
(empty when the log has no list for that feed). -/
def feedEntries (f : File) (name : String) : List J :=
  match load_logs f with
  | J.obj kvs =>
      match dGet kvs name with
      | some (J.arr xs) => xs
      | _ => []
  | _ => []

/-- A log-file state in which every stored feed value is a list — the
shape the system itself writes (missing and unreadable files also
qualify, they read as the empty log). -/
def goodLog (f : File) : Bool :=
  match f with
  | .missing => true
  | .corrupt => true
  | .json (J.obj kvs) => kvs.all (fun p => match p.2 with | J.arr _ => true | _ => false)
  | .json _ => false

/-- `read_all` for display (the index route's `load_logs()` call): a pure
read of the log file; the state is returned untouched because the source
only ever opens the file for reading here. -/
def read_all (logFile : File) : J × File :=
  (load_logs logFile, logFile)

/-- Truthiness of a Python value, for `cfg.get(name, {}).get('enabled')`. -/
def jTruthy (v : J) : Bool :=
  match v with
  | J.null => false
  | J.bool b => b
  | J.num n => n != 0
  | J.str s => !s.isEmpty
  | J.arr xs => !xs.isEmpty
  | J.obj m => !m.isEmpty

/-- Truthiness of an `Option` result of `.get` (`None` is falsy). -/
def optTruthy (o : Option J) : Bool :=
  match o with
  | none => false
  | some v => jTruthy v

/-- `cfg.get(name, {}).get('enabled')`: `None` when the feed key is
absent; an `AttributeError` when the feed's value is not a dict. -/
def enabledVal (cfg : Dict) (name : String) : Except Unit (Option J) :=
  match dGet cfg name with
  | none => .ok none
  | some (J.obj m) => .ok (dGet m "enabled")
  | some _ => .error ()

/-- Python `str.capitalize()`: first character upper-cased, the rest
lower-cased. -/
def pyCapitalize (s : String) : String :=
  match s.data with
  | [] => ""
  | c :: rest => String.mk (c.toUpper :: rest.map Char.toLower)

/-- What one adapter invocation does: emit some diagnostic lines and then
either return or raise with a message.  The captured buffer receives each
line exactly as the dual-sink `Tee` writes it. -/
inductive AdapterOutcome where
  | ok (emitted : List String)
  | err (emitted : List String) (msg : String)

/-- A job adapter, the `func` argument of `run_job`: a `run(config)`
callable, modelled by its observable outcome on the configuration it is
handed.  (An adapter may also rewrite its own config section on disk; the
wrapper never re-reads configuration after the call, so that side effect
is invisible to `run_job` and is not modelled.) -/
abbrev Adapter := Dict → AdapterOutcome

/-- The mutable files `run_job` touches. -/
structure St where
  configFile : File
  logFile : File

/-- The outcome of one `run_job` call: the resulting file state plus how
many times the adapter was invoked and how many log entries were
appended. -/
structure RunResult where
  state : St
  invocations : Nat
  appends : Nat

/-- The captured buffer as a single string, each printed line followed by
the newline `print` appends. -/
def joinLines (ls : List String) : String :=
  String.join (ls.map (fun l => l ++ "\n"))

/-- The header line `run_job` prints before invoking the adapter. -/
def headerLine (name : String) (force : Bool) : String :=
  "⏰ " ++ (if force then "Manual" else "Scheduled") ++ " Job: " ++ pyCapitalize name

/-- The line `run_job` prints when the adapter raises. -/
def failLine (name msg : String) : String :=
  "❌ " ++ pyCapitalize name ++ " Job Failed: " ++ msg

/-- `run_job` of `src/app.py`.  Re-reads the configuration, gates on
`force or cfg.get(name, {}).get('enabled')` (short-circuit: the config is
not consulted when `force` is set), tees everything printed during the
call into a capture buffer, swallows any adapter error after printing its
message, and unconditionally appends one run-log entry for the gated-in
case.  `ts` stands in for the `strftime` timestamp taken inside
`log_run`. -/
def run_job (name : String) (func : Adapter) (force : Bool) (ts : String) (st : St) :
    Except Unit RunResult := do
  let cfg ← load_config st.configFile
  let gate ← if force then pure true else (enabledVal cfg name).map optTruthy
  if gate then
    let (status, buf) :=
      match func cfg with
      | .ok emitted => ("Success", headerLine name force :: emitted)
      | .err emitted msg =>
          ("Failed", headerLine name force :: (emitted ++ [failLine name msg]))
    let logFile' ← log_run name status (joinLines buf) ts st.logFile
    pure ⟨⟨st.configFile, logFile'⟩, 1, 1⟩
  else
    pure ⟨st, 0, 0⟩

/-- A wall-clock instant at minute granularity: `datetime.now()` as a day
index plus minutes within the day.  The source compares `target <= now`
where `target` has seconds and microseconds zeroed, so the comparison is
decided entirely by `(day, hour*60+minute)`. -/
structure DT where
  day : Nat
  minuteOfDay : Nat
deriving DecidableEq, Repr

/-- An APScheduler fire rule as configured by `reschedule_all`: a plain
minute interval, or a `days`-interval anchored at a start instant. -/
inductive FireRule where
  | interval (minutes : Int)
  | fixedDays (days : Int) (start : DT)
deriving DecidableEq, Repr

/-- One scheduled trigger: its id string, the feed it runs (the job's
`args[0]`), and its fire rule. -/
structure Trigger where
  id : String
  feed : String
  rule : FireRule
deriving DecidableEq, Repr

/-- The planner's accumulated output: the trigger set built so far plus
the warning events printed for skipped time strings.  A warning is
recorded as the feed name and the offending `times` element interpolated
into the printed message. -/
structure PlanState where
  triggers : List Trigger
  warnings : List (String × J)

/-- Digit-string value, for Python `int(...)` (no sign). -/
def digitsVal (cs : List Char) : Option Nat :=
  if !cs.isEmpty && cs.all Char.isDigit then
    some (cs.foldl (fun acc c => acc * 10 + (c.toNat - 48)) 0)
  else none

/-- Strip surrounding whitespace, as Python `int(...)` does. -/
def trimChars (cs : List Char) : List Char :=
  ((cs.dropWhile Char.isWhitespace).reverse.dropWhile Char.isWhitespace).reverse

/-- Python `int(s)` on a string: surrounding whitespace stripped, an
optional sign, then decimal digits.  (Underscore separators and
non-ASCII digits, which CPython also accepts, are not modelled; no claim
involves such strings.) -/
def pyInt (s : String) : Option Int :=
  match trimChars s.data with
  | '-' :: rest => (digitsVal rest).map (fun n => -(n : Int))
  | '+' :: rest => (digitsVal rest).map (fun n => (n : Int))
  | cs => (digitsVal cs).map (fun n => (n : Int))

/-- Python `s.split(':')` on the character list: fields between colon
separators (`"".split(':') == ['']`, `"::".split(':') == ['', '', '']`). -/
def splitColon : List Char → List (List Char)
  | [] => [[]]
  | c :: rest =>
      match splitColon rest with
      | [] => [[]]
      | g :: gs => if c = ':' then [] :: g :: gs else (c :: g) :: gs

/-- Python `t_str.split(':')` as strings. -/
def pySplitColon (s : String) : List String :=
  (splitColon s.data).map String.mk

/-- Python `int(v)` on a JSON value: numbers pass through, strings are
parsed, booleans become 0/1, anything else raises `TypeError`. -/
def pyIntOfJ (v : J) : Except Unit Int :=
  match v with
  | J.num n => .ok n
  | J.str s => match pyInt s with | some n => .ok n | none => .error ()
  | J.bool b => .ok (if b then 1 else 0)
  | _ => .error ()

/-- `h, m = map(int, t_str.split(':'))` followed by
`now.replace(hour=h, minute=m, ...)`: succeeds only with exactly two
colon-separated integer fields in the valid hour/minute ranges; any
other shape raises inside the planner's `try` (unpack `ValueError`,
`int` `ValueError`, or `replace` `ValueError`). -/
def parseClock (s : String) : Option (Nat × Nat) :=
  match pySplitColon s with
  | [a, b] =>
      match pyInt a, pyInt b with
      | some h, some m =>
          if 0 ≤ h ∧ h ≤ 23 ∧ 0 ≤ m ∧ m ≤ 59 then some (h.toNat, m.toNat) else none
      | _, _ => none
  | _ => none

/-- The `start_date` anchor: today's occurrence of `h:m`, pushed to
tomorrow when `target <= now`. -/
def anchorOf (now : DT) (h m : Nat) : DT :=
  let tm := h * 60 + m
  if tm ≤ now.minuteOfDay then ⟨now.day + 1, tm⟩ else ⟨now.day, tm⟩

/-- The elements the `for t_str in times:` loop ranges over.  A list
yields its elements; a string yields its characters as one-character
strings (each then fails to parse inside the `try`); a dict yields its
keys; an absent key yields the `[]` default; any other value raises
`TypeError` at the `for` itself, outside the `try`. -/
def timesElems (v : Option J) : Except Unit (List J) :=
  match v with
  | none => .ok []
  | some (J.arr xs) => .ok xs
  | some (J.str s) => .ok (s.data.map (fun c => J.str (String.mk [c])))
  | some (J.obj m) => .ok (m.map (fun p => J.str p.1))
  | some _ => .error ()

/-- The body of the planner's inner loop for one `times` element: parse
it, skip with a warning if it is malformed or its trigger id collides
with an already-added job (`ConflictingIdError` is also caught by the
same `except`), otherwise add the anchored trigger. -/
def addTimeTrigger (name : String) (gap : Int) (now : DT) (ps : PlanState) (e : J) :
    PlanState :=
  match e with
  | J.str s =>
      match parseClock s with
      | some (h, m) =>
          let tid := name ++ "_" ++ s
          if (ps.triggers.map Trigger.id).contains tid then
            { ps with warnings := ps.warnings ++ [(name, J.str s)] }
          else
            { ps with triggers :=
                ps.triggers ++ [⟨tid, name, .fixedDays gap (anchorOf now h m)⟩] }
      | none => { ps with warnings := ps.warnings ++ [(name, J.str s)] }
  | e' => { ps with warnings := ps.warnings ++ [(name, e')] }

/-- The planner's work for one feed of `job_map`: interval mode adds the
single `{name}_interval` trigger (a duplicate id would raise outside any
`try`; with distinct feed names this never happens), otherwise the
fixed-times loop runs with `days` already parsed (an unparseable `days`
or a non-iterable `times` raises out of `reschedule_all`). -/
def planFeed (now : DT) (ps : PlanState) (name : String) (settingsJ : Option J) :
    Except Unit PlanState := do
  let settings ←
    match settingsJ with
    | none => Except.ok ([] : Dict)
    | some (J.obj m) => Except.ok m
    | some _ => Except.error ()
  if (match dGet settings "mode" with
      | some (J.str s) => s == "interval"
      | _ => false) then
    let minutes ← pyIntOfJ ((dGet settings "interval").getD (J.num 30))
    let tid := name ++ "_interval"
    if (ps.triggers.map Trigger.id).contains tid then .error ()
    else .ok { ps with triggers := ps.triggers ++ [⟨tid, name, .interval minutes⟩] }
  else
    let gap ← pyIntOfJ ((dGet settings "days").getD (J.num 1))
    let elems ← timesElems (dGet settings "times")
    .ok (elems.foldl (addTimeTrigger name gap now) ps)

/-- The feeds of `job_map`, in iteration order. -/
def jobNames : List String := ["dota", "weather", "fitness", "energy"]

/-- The planning pass over a loaded configuration, starting from the
empty trigger set `scheduler.remove_all_jobs()` leaves behind. -/
def planConfig (cfg : Dict) (now : DT) : Except Unit PlanState :=
  jobNames.foldlM (fun ps name => planFeed now ps name (dGet cfg name)) ⟨[], []⟩

/-- `reschedule_all` of `src/app.py`: reload the configuration, drop all
jobs, and plan afresh at the current instant `now`. -/
def reschedule_all (f : File) (now : DT) : Except Unit PlanState :=
  (load_config f).bind (fun cfg => planConfig cfg now)

/-- A sequence of run-log appends for one feed: each item is
`(status, output, timestamp)`, applied oldest first. -/
def doAppends (name : String) (items : List (String × String × String)) (f : File) :
    Except Unit File :=
  items.foldlM (fun acc it => log_run name it.1 it.2.1 it.2.2 acc) f

/-- A value of a migrated feed list: a list every element of which is an
`upgradeEntry` image (what `load_logs` hands out and `log_run` stores). -/
def migratedVal (v : J) : Prop :=
  ∃ ys : List J, v = J.arr (ys.map upgradeEntry)

/-- The migration applied to one feed's list value (the successful branch
of `migrateFeed`). -/
def migArr (v : J) : J :=
  match v with
  | J.arr xs => J.arr (xs.map upgradeEntry)
  | v' => v'

/-- A stored configuration with one feed switched to fixed-times mode;
used to exhibit the planner's dependence on the planning instant. -/
def cexCfgFile : File :=
  File.json (J.obj [("dota", J.obj
    [("mode", J.str "fixed"), ("times", J.arr [J.str "08:00"])])])

/-! ## Dictionary lemmas -/

theorem dGet_dSet_self (kvs : Dict) (k : String) (v : J) :
    dGet (dSet kvs k v) k = some v := by
  induction kvs with
  | nil => simp [dSet, dGet]
  | cons p rest ih =>
      obtain ⟨a, b⟩ := p
      by_cases h : a = k
      · simp [dSet, dGet, h]
      · simp [dSet, dGet, h, ih]

theorem dGet_dSet_ne (kvs : Dict) (k k' : String) (v : J) (h : k ≠ k') :
    dGet (dSet kvs k v) k' = dGet kvs k' := by
  induction kvs with
  | nil => simp [dSet, dGet, h]
  | cons p rest ih =>
      obtain ⟨a, b⟩ := p
      by_cases ha : a = k
      · subst ha
        simp [dSet, dGet, h, ih]
      · simp [dSet, dGet, ha, ih]

theorem dGet_append_isSome (kvs l : Dict) (k : String) (h : (dGet kvs k).isSome) :
    dGet (kvs ++ l) k = dGet kvs k := by
  induction kvs with
  | nil => simp [dGet] at h
  | cons p rest ih =>
      obtain ⟨a, b⟩ := p
      by_cases ha : a = k
      · simp [dGet, ha]
      · simp [dGet, ha] at h ⊢
        exact ih h

theorem dGet_append_none (kvs l : Dict) (k : String) (h : dGet kvs k = none) :
    dGet (kvs ++ l) k = dGet l k := by
  induction kvs with
  | nil => simp
  | cons p rest ih =>
      obtain ⟨a, b⟩ := p
      by_cases ha : a = k
      · simp [dGet, ha] at h
      · simp [dGet, ha] at h ⊢
        exact ih h

theorem dGet_map (g : J → J) (kvs : Dict) (k : String) :
    dGet (kvs.map (fun p => (p.1, g p.2))) k = (dGet kvs k).map g := by
  induction kvs with
  | nil => simp [dGet]
  | cons p rest ih =>
      obtain ⟨a, b⟩ := p
      by_cases ha : a = k
      · simp [dGet, ha]
      · simp [dGet, ha, ih]

theorem mem_dSet (kvs : Dict) (k : String) (v : J) :
    ∀ p ∈ dSet kvs k v, p ∈ kvs ∨ p = (k, v) := by
  induction kvs with
  | nil => simp [dSet]
  | cons q rest ih =>
      obtain ⟨a, b⟩ := q
      by_cases ha : a = k
      · intro p hp
        simp [dSet, ha] at hp
        rcases hp with h | h
        · right; simp [h]
        · left; simp [h]
      · intro p hp
        simp [dSet, ha] at hp
        rcases hp with h | h
        · left; simp [h]
        · rcases ih p h with h' | h'
          · left; simp [h']
          · right; exact h'

/-! ## Run-log lemmas -/

theorem upgradeEntry_idem (e : J) : upgradeEntry (upgradeEntry e) = upgradeEntry e := by
  cases e <;> rfl

theorem logsFold_ok (kvs : Dict) :
    ∀ acc : Dict, (∀ p ∈ kvs, ∃ xs, p.2 = J.arr xs) →
      kvs.foldlM (fun acc p => (migrateFeed p.2).map (fun v => acc ++ [(p.1, v)]))
          acc
        = .ok (acc ++ kvs.map (fun p => (p.1, migArr p.2))) := by
  induction kvs with
  | nil =>
      intro acc _
      show Except.ok acc = _
      simp
  | cons p rest ih =>
      intro acc h
      obtain ⟨xs, hxs⟩ := h p (by simp)
      have hrest : ∀ q ∈ rest, ∃ xs, q.2 = J.arr xs := fun q hq => h q (by simp [hq])
      rw [List.foldlM_cons, hxs]
      show List.foldlM _ (acc ++ [(p.1, J.arr (xs.map upgradeEntry))]) rest = _
      rw [ih _ hrest]
      simp [migArr, hxs]

theorem load_logs_good (f : File) (h : goodLog f = true) :
    ∃ kvs : Dict, load_logs f = J.obj kvs ∧ ∀ p ∈ kvs, migratedVal p.2 := by
  cases f with
  | missing =>
      refine ⟨_, rfl, ?_⟩
      intro p hp
      simp [emptyLogs] at hp
      rcases hp with h' | h' | h' | h' <;> exact ⟨[], by simp [h']⟩
  | corrupt =>
      refine ⟨_, rfl, ?_⟩
      intro p hp
      simp [emptyLogs] at hp
      rcases hp with h' | h' | h' | h' <;> exact ⟨[], by simp [h']⟩
  | json j =>
      cases j with
      | obj kvs0 =>
          have hall : ∀ p ∈ kvs0, ∃ xs, p.2 = J.arr xs := by
            intro p hp
            have := List.all_eq_true.mp h p hp
            cases hv : p.2 <;> simp [hv] at this ⊢
          refine ⟨kvs0.map (fun p => (p.1, migArr p.2)), ?_, ?_⟩
          · simp only [load_logs, logsFold_ok kvs0 [] hall, List.nil_append]
          · intro p hp
            obtain ⟨q, hq, rfl⟩ := List.mem_map.mp hp
            obtain ⟨xs, hxs⟩ := hall q hq
            exact ⟨xs, by simp [migArr, hxs]⟩
      | null => simp [goodLog] at h
      | bool b => simp [goodLog] at h
      | num n => simp [goodLog] at h
      | str s => simp [goodLog] at h
      | arr xs => simp [goodLog] at h

theorem dGet_mem (kvs : Dict) (k : String) (v : J) (h : dGet kvs k = some v) :
    (k, v) ∈ kvs := by
  induction kvs with
  | nil => simp [dGet] at h
  | cons p rest ih =>
      obtain ⟨a, b⟩ := p
      by_cases ha : a = k
      · subst ha
        simp [dGet] at h
        simp [h]
      · simp [dGet, ha] at h
        simp [ih h]

theorem load_logs_obj (kvs : Dict) (hall : ∀ p ∈ kvs, ∃ xs, p.2 = J.arr xs) :
    load_logs (File.json (J.obj kvs)) = J.obj (kvs.map (fun p => (p.1, migArr p.2))) := by
  simp only [load_logs, logsFold_ok kvs [] hall, List.nil_append]

theorem map_upgrade_self (ys : List J) :
    (ys.map upgradeEntry).map upgradeEntry = ys.map upgradeEntry := by
  simp only [List.map_map]
  exact List.map_congr_left (fun e _ => upgradeEntry_idem e)

theorem store_feed_list (kvs : Dict) (hmig : ∀ p ∈ kvs, migratedVal p.2)
    (name : String) (newl : List J) (hnewl : ∀ e ∈ newl, upgradeEntry e = e) :
    feedEntries (File.json (J.obj (dSet kvs name (J.arr newl)))) name = newl ∧
    (∀ n', n' ≠ name → feedEntries (File.json (J.obj (dSet kvs name (J.arr newl)))) n'
      = (match dGet kvs n' with | some (J.arr xs) => xs | _ => [])) ∧
    goodLog (File.json (J.obj (dSet kvs name (J.arr newl)))) = true := by
  have hallarr : ∀ p ∈ kvs, ∃ xs, p.2 = J.arr xs := by
    intro p hp
    obtain ⟨ys, hys⟩ := hmig p hp
    exact ⟨ys.map upgradeEntry, hys⟩
  have h2 : ∀ p ∈ dSet kvs name (J.arr newl), ∃ zs, p.2 = J.arr zs := by
    intro p hp
    rcases mem_dSet kvs name _ p hp with hp' | hp'
    · exact hallarr p hp'
    · exact ⟨newl, by rw [hp']⟩
  have hobj := load_logs_obj _ h2
  refine ⟨?_, ?_, ?_⟩
  · have hdg : dGet (List.map (fun p => (p.1, migArr p.2)) (dSet kvs name (J.arr newl)))
        name = some (J.arr (newl.map upgradeEntry)) := by
      rw [dGet_map, dGet_dSet_self]
      rfl
    have hmap : newl.map upgradeEntry = newl := by
      calc newl.map upgradeEntry = newl.map id := List.map_congr_left hnewl
        _ = newl := List.map_id newl
    simp [feedEntries, hobj, hdg, hmap]
  · intro n' hne
    cases hv' : dGet kvs n' with
    | none =>
        have hdg : dGet (List.map (fun p => (p.1, migArr p.2)) (dSet kvs name (J.arr newl)))
            n' = none := by
          rw [dGet_map, dGet_dSet_ne kvs name n' _ (fun e => hne e.symm), hv']
          rfl
        simp [feedEntries, hobj, hdg]
    | some v' =>
        obtain ⟨ws, hws⟩ := hmig (n', v') (dGet_mem kvs n' v' hv')
        simp only at hws
        subst hws
        have hdg : dGet (List.map (fun p => (p.1, migArr p.2)) (dSet kvs name (J.arr newl)))
            n' = some (J.arr ((ws.map upgradeEntry).map upgradeEntry)) := by
          rw [dGet_map, dGet_dSet_ne kvs name n' _ (fun e => hne e.symm), hv']
          rfl
        simp only [feedEntries, hobj, hdg, map_upgrade_self]
  · simp only [goodLog, List.all_eq_true]
    intro p hp
    obtain ⟨zs, hzs⟩ := h2 p hp
    simp [hzs]

theorem log_run_good (name status output ts : String) (f : File) (h : goodLog f = true) :
    ∃ f', log_run name status output ts f = .ok f' ∧ goodLog f' = true ∧
      feedEntries f' name = (mkEntry ts status output :: feedEntries f name).take 10 ∧
      (∀ n', n' ≠ name → feedEntries f' n' = feedEntries f n') ∧
      ∃ kvs2 : Dict, f' = File.json (J.obj kvs2) := by
  obtain ⟨kvs, hload, hmig⟩ := load_logs_good f h
  have hfeed : ∀ n, feedEntries f n =
      (match dGet kvs n with | some (J.arr xs) => xs | _ => []) := by
    intro n
    cases hv : dGet kvs n with
    | none => simp [feedEntries, hload, hv]
    | some v => cases v <;> simp [feedEntries, hload, hv]
  by_cases hk : (dGet kvs name).isSome
  · -- the feed already has a (migrated) list
    obtain ⟨v, hv⟩ := Option.isSome_iff_exists.mp hk
    obtain ⟨ys, hys⟩ := hmig (name, v) (dGet_mem kvs name v hv)
    simp only at hys
    subst hys
    have hnewl : ∀ e ∈ (mkEntry ts status output :: ys.map upgradeEntry).take 10,
        upgradeEntry e = e := by
      intro e he
      have he' := List.mem_of_mem_take he
      rcases List.mem_cons.mp he' with he'' | he''
      · rw [he'']
        rfl
      · obtain ⟨y, _, rfl⟩ := List.mem_map.mp he''
        exact upgradeEntry_idem y
    obtain ⟨e1, e2, e3⟩ := store_feed_list kvs hmig name _ hnewl
    refine ⟨_, ?_, e3, ?_, ?_, _, rfl⟩
    · simp [log_run, hload, dHasKey, hv]
    · rw [e1, hfeed name, hv]
    · intro n' hne
      rw [e2 n' hne, hfeed n']
  · -- the feed is absent: log_run first installs an empty list
    have hnone : dGet kvs name = none := Option.not_isSome_iff_eq_none.mp hk
    have hget1 : dGet (kvs ++ [(name, J.arr [])]) name = some (J.arr []) := by
      rw [dGet_append_none kvs _ name hnone]
      simp [dGet]
    have hmig1 : ∀ p ∈ kvs ++ [(name, J.arr [])], migratedVal p.2 := by
      intro p hp
      rcases List.mem_append.mp hp with hp' | hp'
      · exact hmig p hp'
      · simp at hp'
        exact ⟨[], by simp [hp']⟩
    have hnewl : ∀ e ∈ [mkEntry ts status output], upgradeEntry e = e := by
      intro e he
      simp at he
      rw [he]
      rfl
    obtain ⟨e1, e2, e3⟩ := store_feed_list (kvs ++ [(name, J.arr [])]) hmig1 name _ hnewl
    refine ⟨_, ?_, e3, ?_, ?_, _, rfl⟩
    · simp [log_run, hload, dHasKey, hnone, hget1]
    · rw [e1, hfeed name, hnone]
      rfl
    · intro n' hne
      rw [e2 n' hne, hfeed n']
      cases hv' : dGet kvs n' with
      | none =>
          rw [dGet_append_none kvs _ n' hv']
          have hx : dGet [(name, J.arr [])] n' = none := by
            simp [dGet, Ne.symm hne]
          rw [hx]
      | some v' =>
          rw [dGet_append_isSome kvs _ n' (by simp [hv']), hv']

theorem ok_bind {α β : Type} (a : α) (g : α → Except Unit β) :
    ((Except.ok a : Except Unit α) >>= g) = g a := rfl

theorem take_append_take (A B : List J) (n : Nat) :
    (A ++ B.take n).take n = (A ++ B).take n := by
  rw [List.take_append_eq_append_take, List.take_append_eq_append_take, List.take_take,
    Nat.min_eq_left (Nat.sub_le n A.length)]

theorem doAppends_good (name : String) (items : List (String × String × String)) :
    ∀ f : File, goodLog f = true →
      ∃ f', doAppends name items f = .ok f' ∧ goodLog f' = true ∧
        (items = [] → f' = f) ∧
        (items ≠ [] → feedEntries f' name
          = ((items.map (fun it => mkEntry it.2.2 it.1 it.2.1)).reverse
              ++ feedEntries f name).take 10) ∧
        (∀ n', n' ≠ name → feedEntries f' n' = feedEntries f n') := by
  induction items with
  | nil =>
      intro f hf
      exact ⟨f, rfl, hf, fun _ => rfl, fun hne => absurd rfl hne, fun _ _ => rfl⟩
  | cons it rest ih =>
      intro f hf
      obtain ⟨f1, hlr, hg1, hfe1, hoth1, _⟩ := log_run_good name it.1 it.2.1 it.2.2 f hf
      obtain ⟨f', hda, hg', _, hcons, hoth⟩ := ih f1 hg1
      refine ⟨f', ?_, hg', fun h => absurd h (List.cons_ne_nil it rest), fun _ => ?_, ?_⟩
      · simp only [doAppends, List.foldlM_cons, hlr, ok_bind]
        exact hda
      · rcases Decidable.em (rest = []) with hr | hr
        · subst hr
          obtain ⟨f'', hda2, _, hnil2, _, _⟩ := ih f1 hg1
          have : f' = f1 := by
            have h1 : doAppends name [] f1 = Except.ok f1 := rfl
            have h2 : doAppends name ([] : List (String × String × String)) f1
                = Except.ok f' := hda
            rw [h1] at h2
            exact (Except.ok.injEq .. ▸ h2).symm
          subst this
          rw [hfe1]
          simp
        · rw [hcons hr, hfe1, take_append_take]
          simp [List.append_assoc]
      · intro n' hn
        rw [hoth n' hn, hoth1 n' hn]

/-! ## Configuration-merge lemmas -/

theorem bind_dissect {α β : Type} (e : Except Unit α) (g : α → Except Unit β) (b : β)
    (h : (e >>= g) = .ok b) : ∃ a, e = .ok a ∧ g a = .ok b := by
  cases e with
  | error err => simp [Bind.bind, Except.bind] at h
  | ok a => exact ⟨a, rfl, h⟩

theorem interval_id_eq (name : String) :
    name ++ "_interval" = (name ++ "_") ++ "interval" := by
  rw [String.append_assoc]
  rfl

theorem str_append_cancel (a s t : String) (h : a ++ s = a ++ t) : s = t := by
  apply String.ext
  have hd := congrArg String.data h
  simp only [String.data_append] at hd
  exact List.append_cancel_left hd

theorem job_id_ne : ∀ a ∈ jobNames, ∀ b ∈ jobNames, a ≠ b →
    ∀ s t : String, (a ++ "_") ++ s ≠ (b ++ "_") ++ t := by
  intro a ha b hb hne s t h
  have hd := congrArg String.data h
  simp only [String.data_append] at hd
  fin_cases ha <;> fin_cases hb <;> simp_all

theorem addTime_shape (name : String) (gap : Int) (now : DT) (ps : PlanState) (e : J) :
    ∃ ts ws, addTimeTrigger name gap now ps e = ⟨ps.triggers ++ ts, ps.warnings ++ ws⟩ ∧
      ∀ tr ∈ ts, tr.feed = name ∧ ∃ tok hh mm, tr.id = (name ++ "_") ++ tok ∧
        parseClock tok = some (hh, mm) ∧ tr.rule = .fixedDays gap (anchorOf now hh mm) ∧
        e = J.str tok := by
  cases e with
  | str s =>
      have he : addTimeTrigger name gap now ps (J.str s)
          = (match parseClock s with
             | some (h, m) =>
                if (ps.triggers.map Trigger.id).contains (name ++ "_" ++ s) then
                  { ps with warnings := ps.warnings ++ [(name, J.str s)] }
                else { ps with triggers := ps.triggers ++
                    [⟨name ++ "_" ++ s, name, .fixedDays gap (anchorOf now h m)⟩] }
             | none => { ps with warnings := ps.warnings ++ [(name, J.str s)] }) := rfl
      cases hps : parseClock s with
      | none =>
          have he2 : addTimeTrigger name gap now ps (J.str s)
              = { ps with warnings := ps.warnings ++ [(name, J.str s)] } := by
            rw [he, hps]
          rw [he2]
          exact ⟨[], [(name, J.str s)], by cases ps; simp, by simp⟩
      | some pr =>
          obtain ⟨hh, mm⟩ := pr
          have he2 : addTimeTrigger name gap now ps (J.str s)
              = if (ps.triggers.map Trigger.id).contains (name ++ "_" ++ s) then
                  { ps with warnings := ps.warnings ++ [(name, J.str s)] }
                else { ps with triggers := ps.triggers ++
                    [⟨name ++ "_" ++ s, name, .fixedDays gap (anchorOf now hh mm)⟩] } := by
            rw [he, hps]
          rw [he2]
          by_cases hc : ((ps.triggers.map Trigger.id).contains (name ++ "_" ++ s)) = true
          · rw [if_pos hc]
            exact ⟨[], [(name, J.str s)], by cases ps; simp, by simp⟩
          · rw [if_neg hc]
            refine ⟨[⟨name ++ "_" ++ s, name, .fixedDays gap (anchorOf now hh mm)⟩], [],
              by cases ps; simp, ?_⟩
            intro tr htr
            rcases List.mem_singleton.mp htr with rfl
            exact ⟨rfl, s, hh, mm, rfl, hps, rfl, rfl⟩
  | null => exact ⟨[], [(name, J.null)], by cases ps; simp [addTimeTrigger], by simp⟩
  | bool b => exact ⟨[], [(name, J.bool b)], by cases ps; simp [addTimeTrigger], by simp⟩
  | num n => exact ⟨[], [(name, J.num n)], by cases ps; simp [addTimeTrigger], by simp⟩
  | arr xs => exact ⟨[], [(name, J.arr xs)], by cases ps; simp [addTimeTrigger], by simp⟩
  | obj m => exact ⟨[], [(name, J.obj m)], by cases ps; simp [addTimeTrigger], by simp⟩

theorem foldl_addTime_shape (name : String) (gap : Int) (now : DT) :
    ∀ (es : List J) (ps : PlanState),
      ∃ ts ws, es.foldl (addTimeTrigger name gap now) ps
          = ⟨ps.triggers ++ ts, ps.warnings ++ ws⟩ ∧
        ∀ tr ∈ ts, tr.feed = name ∧ ∃ tok hh mm, tr.id = (name ++ "_") ++ tok ∧
          parseClock tok = some (hh, mm) ∧ tr.rule = .fixedDays gap (anchorOf now hh mm) ∧
          J.str tok ∈ es := by
  intro es
  induction es with
  | nil =>
      intro ps
      exact ⟨[], [], by cases ps; simp, by simp⟩
  | cons e rest ih =>
      intro ps
      obtain ⟨ts1, ws1, heq1, hnew1⟩ := addTime_shape name gap now ps e
      obtain ⟨ts2, ws2, heq2, hnew2⟩ := ih (addTimeTrigger name gap now ps e)
      refine ⟨ts1 ++ ts2, ws1 ++ ws2, ?_, ?_⟩
      · rw [List.foldl_cons, heq2, heq1]
        simp [List.append_assoc]
      · intro tr htr
        rcases List.mem_append.mp htr with h | h
        · obtain ⟨hfeed, tok, hh, mm, hid, hpc, hrule, hsrc⟩ := hnew1 tr h
          exact ⟨hfeed, tok, hh, mm, hid, hpc, hrule, by rw [hsrc]; exact List.mem_cons_self _ _⟩
        · obtain ⟨hfeed, tok, hh, mm, hid, hpc, hrule, hsrc⟩ := hnew2 tr h
          exact ⟨hfeed, tok, hh, mm, hid, hpc, hrule, List.mem_cons_of_mem e hsrc⟩

theorem planFeed_eval_none (now : DT) (ps : PlanState) (name : String) :
    planFeed now ps name none = .ok ps := rfl

theorem okBind {α β : Type} (a : α) (g : α → Except Unit β) :
    (Except.ok a : Except Unit α).bind g = g a := rfl

theorem planFeed_obj_eval (now : DT) (ps : PlanState) (name : String) (settings : Dict) :
    planFeed now ps name (some (J.obj settings)) =
      if (match dGet settings "mode" with
          | some (J.str x) => x == "interval"
          | _ => false) then
        (pyIntOfJ ((dGet settings "interval").getD (J.num 30))).bind (fun minutes =>
          if (ps.triggers.map Trigger.id).contains (name ++ "_interval") then .error ()
          else .ok { ps with triggers :=
            ps.triggers ++ [⟨name ++ "_interval", name, .interval minutes⟩] })
      else
        (pyIntOfJ ((dGet settings "days").getD (J.num 1))).bind (fun gap =>
          (timesElems (dGet settings "times")).bind (fun elems =>
            .ok (elems.foldl (addTimeTrigger name gap now) ps))) := rfl

theorem planFeed_fixed_eval (now : DT) (ps : PlanState) (name : String)
    (settings : Dict) (gap : Int) (ts : List J)
    (hmode : dGet settings "mode" ≠ some (J.str "interval"))
    (hgap : pyIntOfJ ((dGet settings "days").getD (J.num 1)) = .ok gap)
    (hts : dGet settings "times" = some (J.arr ts)) :
    planFeed now ps name (some (J.obj settings))
      = .ok (ts.foldl (addTimeTrigger name gap now) ps) := by
  have hc : (match dGet settings "mode" with
      | some (J.str x) => x == "interval"
      | _ => false) = false := by
    cases hm : dGet settings "mode" with
    | none => rfl
    | some v =>
        cases v with
        | str x =>
            rw [beq_eq_false_iff_ne]
            intro hx
            exact hmode (by rw [hm, hx])
        | null => rfl
        | bool b => rfl
        | num n => rfl
        | arr xs => rfl
        | obj m => rfl
  rw [planFeed_obj_eval]
  simp only [hc]
  rw [if_neg Bool.false_ne_true, hgap, okBind, hts]
  rw [show timesElems (some (J.arr ts)) = .ok ts from rfl, okBind]

theorem planFeed_new_triggers (now : DT) (ps : PlanState) (name : String) (sj : Option J)
    (ps' : PlanState) (h : planFeed now ps name sj = .ok ps') :
    ∃ ts ws, ps' = ⟨ps.triggers ++ ts, ps.warnings ++ ws⟩ ∧
      ∀ tr ∈ ts, tr.feed = name ∧
        ((tr.id = name ++ "_interval" ∧
           ∃ m, sj = some (J.obj m) ∧ dGet m "mode" = some (J.str "interval")) ∨
         (∃ tok hh mm gap, tr.id = (name ++ "_") ++ tok ∧ parseClock tok = some (hh, mm) ∧
            tr.rule = .fixedDays gap (anchorOf now hh mm))) := by
  rcases sj with _ | v
  · rw [planFeed_eval_none] at h
    have hps : ps' = ps := by injection h with h'; exact h'.symm
    subst hps
    exact ⟨[], [], by cases ps'; simp, by simp⟩
  · cases v with
    | obj settings =>
        rw [planFeed_obj_eval] at h
        by_cases hc : (match dGet settings "mode" with
            | some (J.str x) => x == "interval"
            | _ => false) = true
        · rw [if_pos hc] at h
          obtain ⟨mins, hmins, h2⟩ := bind_dissect _ _ _ h
          by_cases hdup : ((ps.triggers.map Trigger.id).contains (name ++ "_interval"))
              = true
          · rw [if_pos hdup] at h2
            exact absurd h2 (by simp)
          · rw [if_neg hdup] at h2
            have hps : ps' = { ps with
                triggers := ps.triggers ++ [⟨name ++ "_interval", name, .interval mins⟩] } := by
              injection h2 with h'
              exact h'.symm
            subst hps
            have hmm : dGet settings "mode" = some (J.str "interval") := by
              cases hm : dGet settings "mode" with
              | none => rw [hm] at hc; exact absurd hc (by simp)
              | some v =>
                  cases v with
                  | str x =>
                      rw [hm] at hc
                      have hx : x = "interval" := by simpa using hc
                      rw [hx]
                  | null => rw [hm] at hc; exact absurd hc (by simp)
                  | bool b => rw [hm] at hc; exact absurd hc (by simp)
                  | num n => rw [hm] at hc; exact absurd hc (by simp)
                  | arr xs => rw [hm] at hc; exact absurd hc (by simp)
                  | obj m => rw [hm] at hc; exact absurd hc (by simp)
            refine ⟨[⟨name ++ "_interval", name, .interval mins⟩], [],
              by cases ps; simp, ?_⟩
            intro tr htr
            rcases List.mem_singleton.mp htr with rfl
            exact ⟨rfl, Or.inl ⟨rfl, settings, rfl, hmm⟩⟩
        · rw [if_neg hc] at h
          obtain ⟨gap, hgap, h2⟩ := bind_dissect _ _ _ h
          obtain ⟨elems, helems, h3⟩ := bind_dissect _ _ _ h2
          have hps : ps' = elems.foldl (addTimeTrigger name gap now) ps := by
            injection h3 with h'
            exact h'.symm
          subst hps
          obtain ⟨ts, ws, heq, hnew⟩ := foldl_addTime_shape name gap now elems ps
          refine ⟨ts, ws, heq, ?_⟩
          intro tr htr
          obtain ⟨hfeed, tok, hh, mm, hid, hpc, hrule, _⟩ := hnew tr htr
          exact ⟨hfeed, Or.inr ⟨tok, hh, mm, gap, hid, hpc, hrule⟩⟩
    | null =>
        rw [show planFeed now ps name (some J.null) = .error () from rfl] at h
        exact absurd h (by simp)
    | bool b =>
        rw [show planFeed now ps name (some (J.bool b)) = .error () from rfl] at h
        exact absurd h (by simp)
    | num n =>
        rw [show planFeed now ps name (some (J.num n)) = .error () from rfl] at h
        exact absurd h (by simp)
    | str s =>
        rw [show planFeed now ps name (some (J.str s)) = .error () from rfl] at h
        exact absurd h (by simp)
    | arr xs =>
        rw [show planFeed now ps name (some (J.arr xs)) = .error () from rfl] at h
        exact absurd h (by simp)

theorem planConfig_eq (cfg : Dict) (now : DT) :
    planConfig cfg now =
      (planFeed now ⟨[], []⟩ "dota" (dGet cfg "dota")) >>= (fun s1 =>
      (planFeed now s1 "weather" (dGet cfg "weather")) >>= (fun s2 =>
      (planFeed now s2 "fitness" (dGet cfg "fitness")) >>= (fun s3 =>
      (planFeed now s3 "energy" (dGet cfg "energy")) >>= (fun s4 =>
      pure s4)))) := rfl

theorem foldl_addTime_creates (name : String) (gap : Int) (now : DT) :
    ∀ (es : List J) (ps : PlanState) (s : String) (hh mm : Nat),
      J.str s ∈ es → parseClock s = some (hh, mm) →
      (name ++ "_" ++ s) ∉ ps.triggers.map Trigger.id →
      (⟨name ++ "_" ++ s, name, .fixedDays gap (anchorOf now hh mm)⟩ : Trigger)
        ∈ (es.foldl (addTimeTrigger name gap now) ps).triggers := by
  intro es
  induction es with
  | nil =>
      intro ps s hh mm hmem
      simp at hmem
  | cons e rest ih =>
      intro ps s hh mm hmem hclock hpre
      rw [List.foldl_cons]
      by_cases heqe : e = J.str s
      · subst heqe
        have hcont : ((ps.triggers.map Trigger.id).contains (name ++ "_" ++ s)) = false := by
          simpa using hpre
        have hstep : addTimeTrigger name gap now ps (J.str s)
            = { ps with triggers := ps.triggers ++
                [⟨name ++ "_" ++ s, name, .fixedDays gap (anchorOf now hh mm)⟩] } := by
          rw [show addTimeTrigger name gap now ps (J.str s) = (match parseClock s with
             | some (h, m) =>
                if (ps.triggers.map Trigger.id).contains (name ++ "_" ++ s) then
                  { ps with warnings := ps.warnings ++ [(name, J.str s)] }
                else { ps with triggers := ps.triggers ++
                    [⟨name ++ "_" ++ s, name, .fixedDays gap (anchorOf now h m)⟩] }
             | none => { ps with warnings := ps.warnings ++ [(name, J.str s)] }) from rfl,
            hclock]
          show (if (ps.triggers.map Trigger.id).contains (name ++ "_" ++ s) = true then
              { ps with warnings := ps.warnings ++ [(name, J.str s)] }
            else { ps with triggers := ps.triggers ++
                [⟨name ++ "_" ++ s, name, .fixedDays gap (anchorOf now hh mm)⟩] }) = _
          rw [if_neg (by rw [hcont]; exact Bool.false_ne_true)]
        rw [hstep]
        obtain ⟨ts2, ws2, heq2, _⟩ := foldl_addTime_shape name gap now rest
          { ps with triggers := ps.triggers ++
              [⟨name ++ "_" ++ s, name, .fixedDays gap (anchorOf now hh mm)⟩] }
        rw [heq2]
        simp
      · have hmem' : J.str s ∈ rest := by
          rcases List.mem_cons.mp hmem with h' | h'
          · exact absurd h'.symm heqe
          · exact h'
        obtain ⟨ts1, ws1, heq1, hnew1⟩ := addTime_shape name gap now ps e
        apply ih (addTimeTrigger name gap now ps e) s hh mm hmem' hclock
        rw [heq1]
        intro hin
        simp only [List.map_append] at hin
        rcases List.mem_append.mp hin with h' | h'
        · exact hpre h'
        · obtain ⟨tr, htr, hid⟩ := List.mem_map.mp h'
          obtain ⟨_, tok, hh', mm', hid', _, _, hsrc⟩ := hnew1 tr htr
          rw [hid'] at hid
          have hts : tok = s := str_append_cancel (name ++ "_") tok s hid
          rw [hts] at hsrc
          exact heqe hsrc

theorem foldl_addTime_warns (name : String) (gap : Int) (now : DT) :
    ∀ (es : List J) (ps : PlanState) (s : String),
      J.str s ∈ es → parseClock s = none →
      (name, J.str s) ∈ (es.foldl (addTimeTrigger name gap now) ps).warnings := by
  intro es
  induction es with
  | nil =>
      intro ps s hmem
      simp at hmem
  | cons e rest ih =>
      intro ps s hmem hclock
      rw [List.foldl_cons]
      by_cases heqe : e = J.str s
      · subst heqe
        have hstep : addTimeTrigger name gap now ps (J.str s)
            = { ps with warnings := ps.warnings ++ [(name, J.str s)] } := by
          rw [show addTimeTrigger name gap now ps (J.str s) = (match parseClock s with
             | some (h, m) =>
                if (ps.triggers.map Trigger.id).contains (name ++ "_" ++ s) then
                  { ps with warnings := ps.warnings ++ [(name, J.str s)] }
                else { ps with triggers := ps.triggers ++
                    [⟨name ++ "_" ++ s, name, .fixedDays gap (anchorOf now h m)⟩] }
             | none => { ps with warnings := ps.warnings ++ [(name, J.str s)] }) from rfl,
            hclock]
        rw [hstep]
        obtain ⟨ts2, ws2, heq2, _⟩ := foldl_addTime_shape name gap now rest
          { ps with warnings := ps.warnings ++ [(name, J.str s)] }
        rw [heq2]
        simp
      · have hmem' : J.str s ∈ rest := by
          rcases List.mem_cons.mp hmem with h' | h'
          · exact absurd h'.symm heqe
          · exact h'
        exact ih (addTimeTrigger name gap now ps e) s hmem' hclock

theorem planConfig_dissect (cfg : Dict) (now : DT) (ps : PlanState)
    (h : planConfig cfg now = .ok ps) :
    ∃ s1 s2 s3,
      planFeed now ⟨[], []⟩ "dota" (dGet cfg "dota") = .ok s1 ∧
      planFeed now s1 "weather" (dGet cfg "weather") = .ok s2 ∧
      planFeed now s2 "fitness" (dGet cfg "fitness") = .ok s3 ∧
      planFeed now s3 "energy" (dGet cfg "energy") = .ok ps := by
  rw [planConfig_eq] at h
  obtain ⟨s1, h1, h⟩ := bind_dissect _ _ _ h
  obtain ⟨s2, h2, h⟩ := bind_dissect _ _ _ h
  obtain ⟨s3, h3, h⟩ := bind_dissect _ _ _ h
  obtain ⟨s4, h4, h⟩ := bind_dissect _ _ _ h
  have h' : Except.ok s4 = Except.ok ps := h
  have hps : s4 = ps := by injection h'
  subst hps
  exact ⟨s1, s2, s3, h1, h2, h3, h4⟩

theorem planConfig_provenance (cfg : Dict) (now : DT) (ps : PlanState)
    (h : planConfig cfg now = .ok ps) :
    ∀ tr ∈ ps.triggers, ∃ fd, fd ∈ jobNames ∧ tr.feed = fd ∧
      ((tr.id = fd ++ "_interval" ∧
         ∃ m, dGet cfg fd = some (J.obj m) ∧ dGet m "mode" = some (J.str "interval")) ∨
       (∃ tok hh mm gap, tr.id = (fd ++ "_") ++ tok ∧ parseClock tok = some (hh, mm) ∧
          tr.rule = .fixedDays gap (anchorOf now hh mm))) := by
  obtain ⟨s1, s2, s3, h1, h2, h3, h4⟩ := planConfig_dissect cfg now ps h
  obtain ⟨t1, w1, he1, hn1⟩ := planFeed_new_triggers _ _ _ _ _ h1
  obtain ⟨t2, w2, he2, hn2⟩ := planFeed_new_triggers _ _ _ _ _ h2
  obtain ⟨t3, w3, he3, hn3⟩ := planFeed_new_triggers _ _ _ _ _ h3
  obtain ⟨t4, w4, he4, hn4⟩ := planFeed_new_triggers _ _ _ _ _ h4
  intro tr htr
  subst he4
  subst he3
  subst he2
  subst he1
  simp only [List.mem_append] at htr
  rcases htr with (((htr | htr) | htr) | htr) | htr
  · simp at htr
  · exact ⟨"dota", by simp [jobNames], (hn1 tr htr).1, (hn1 tr htr).2⟩
  · exact ⟨"weather", by simp [jobNames], (hn2 tr htr).1, (hn2 tr htr).2⟩
  · exact ⟨"fitness", by simp [jobNames], (hn3 tr htr).1, (hn3 tr htr).2⟩
  · exact ⟨"energy", by simp [jobNames], (hn4 tr htr).1, (hn4 tr htr).2⟩

theorem planFeed_shape_for (now : DT) (ps : PlanState) (name : String) (sj : Option J)
    (ps' : PlanState) (h : planFeed now ps name sj = .ok ps') :
    ∀ tr ∈ ps'.triggers, tr ∈ ps.triggers ∨
      (tr.feed = name ∧ ∃ tok, tr.id = (name ++ "_") ++ tok) := by
  obtain ⟨ts, ws, rfl, hnew⟩ := planFeed_new_triggers _ _ _ _ _ h
  intro tr htr
  rcases List.mem_append.mp htr with h' | h'
  · exact Or.inl h'
  · obtain ⟨hfeed, hrest⟩ := hnew tr h'
    refine Or.inr ⟨hfeed, ?_⟩
    rcases hrest with ⟨hid, _⟩ | ⟨tok, hh, mm, gap, hid, _, _⟩
    · exact ⟨"interval", by rw [hid, interval_id_eq]⟩
    · exact ⟨tok, hid⟩

theorem pre_no_clash (name : String) (hname : name ∈ jobNames) (s : String)
    (trs : List Trigger)
    (hsh : ∀ tr ∈ trs, ∃ fd, fd ∈ jobNames ∧ fd ≠ name ∧ tr.feed = fd ∧
      ∃ tok, tr.id = (fd ++ "_") ++ tok) :
    (name ++ "_" ++ s) ∉ trs.map Trigger.id := by
  intro hmem
  obtain ⟨tr, htr, hid⟩ := List.mem_map.mp hmem
  obtain ⟨fd, hin, hne, _, tok, hsh'⟩ := hsh tr htr
  rw [hsh'] at hid
  exact job_id_ne fd hin name hname hne tok s hid

theorem fixed_trigger_created (f : File) (now : DT) (ps : PlanState) (cfg settings : Dict)
    (name s : String) (ts : List J) (hh mm : Nat) (gap : Int)
    (hre : reschedule_all f now = .ok ps)
    (hcfg : load_config f = .ok cfg)
    (hname : name ∈ jobNames)
    (hset : dGet cfg name = some (J.obj settings))
    (hmode : dGet settings "mode" ≠ some (J.str "interval"))
    (hgap : pyIntOfJ ((dGet settings "days").getD (J.num 1)) = .ok gap)
    (hts : dGet settings "times" = some (J.arr ts))
    (hmem : J.str s ∈ ts)
    (hclock : parseClock s = some (hh, mm)) :
    (⟨name ++ "_" ++ s, name, .fixedDays gap (anchorOf now hh mm)⟩ : Trigger)
      ∈ ps.triggers := by
  have hplan : planConfig cfg now = .ok ps := by
    unfold reschedule_all at hre
    rw [hcfg, okBind] at hre
    exact hre
  obtain ⟨s1, s2, s3, h1, h2, h3, h4⟩ := planConfig_dissect cfg now ps hplan
  fin_cases hname
  · -- dota
    rw [hset, planFeed_fixed_eval now ⟨[], []⟩ "dota" settings gap ts hmode hgap hts] at h1
    have hs1 : s1 = ts.foldl (addTimeTrigger "dota" gap now) ⟨[], []⟩ := by
      injection h1 with h'
      exact h'.symm
    have hpre : ("dota" ++ "_" ++ s) ∉ (PlanState.mk [] []).triggers.map Trigger.id := by
      simp
    have hcr := foldl_addTime_creates "dota" gap now ts ⟨[], []⟩ s hh mm hmem hclock hpre
    rw [← hs1] at hcr
    obtain ⟨t2, w2, rfl, _⟩ := planFeed_new_triggers _ _ _ _ _ h2
    obtain ⟨t3, w3, rfl, _⟩ := planFeed_new_triggers _ _ _ _ _ h3
    obtain ⟨t4, w4, rfl, _⟩ := planFeed_new_triggers _ _ _ _ _ h4
    simp only [List.mem_append]
    exact Or.inl (Or.inl (Or.inl hcr))
  · -- weather
    have sh1 := planFeed_shape_for _ _ _ _ _ h1
    have hpre : ("weather" ++ "_" ++ s) ∉ s1.triggers.map Trigger.id := by
      apply pre_no_clash "weather" (by simp [jobNames]) s
      intro tr htr
      rcases sh1 tr htr with htr0 | hshape
      · simp at htr0
      · exact ⟨"dota", by simp [jobNames], by decide, hshape.1, hshape.2⟩
    rw [hset, planFeed_fixed_eval now s1 "weather" settings gap ts hmode hgap hts] at h2
    have hs2 : s2 = ts.foldl (addTimeTrigger "weather" gap now) s1 := by
      injection h2 with h'
      exact h'.symm
    have hcr := foldl_addTime_creates "weather" gap now ts s1 s hh mm hmem hclock hpre
    rw [← hs2] at hcr
    obtain ⟨t3, w3, rfl, _⟩ := planFeed_new_triggers _ _ _ _ _ h3
    obtain ⟨t4, w4, rfl, _⟩ := planFeed_new_triggers _ _ _ _ _ h4
    simp only [List.mem_append]
    exact Or.inl (Or.inl hcr)
  · -- fitness
    have sh1 := planFeed_shape_for _ _ _ _ _ h1
    have sh2 := planFeed_shape_for _ _ _ _ _ h2
    have hpre : ("fitness" ++ "_" ++ s) ∉ s2.triggers.map Trigger.id := by
      apply pre_no_clash "fitness" (by simp [jobNames]) s
      intro tr htr
      rcases sh2 tr htr with htr1 | hshape
      · rcases sh1 tr htr1 with htr0 | hshape
        · simp at htr0
        · exact ⟨"dota", by simp [jobNames], by decide, hshape.1, hshape.2⟩
      · exact ⟨"weather", by simp [jobNames], by decide, hshape.1, hshape.2⟩
    rw [hset, planFeed_fixed_eval now s2 "fitness" settings gap ts hmode hgap hts] at h3
    have hs3 : s3 = ts.foldl (addTimeTrigger "fitness" gap now) s2 := by
      injection h3 with h'
      exact h'.symm
    have hcr := foldl_addTime_creates "fitness" gap now ts s2 s hh mm hmem hclock hpre
    rw [← hs3] at hcr
    obtain ⟨t4, w4, rfl, _⟩ := planFeed_new_triggers _ _ _ _ _ h4
    simp only [List.mem_append]
    exact Or.inl hcr
  · -- energy
    have sh1 := planFeed_shape_for _ _ _ _ _ h1
    have sh2 := planFeed_shape_for _ _ _ _ _ h2
    have sh3 := planFeed_shape_for _ _ _ _ _ h3
    have hpre : ("energy" ++ "_" ++ s) ∉ s3.triggers.map Trigger.id := by
      apply pre_no_clash "energy" (by simp [jobNames]) s
      intro tr htr
      rcases sh3 tr htr with htr2 | hshape
      · rcases sh2 tr htr2 with htr1 | hshape
        · rcases sh1 tr htr1 with htr0 | hshape
          · simp at htr0
          · exact ⟨"dota", by simp [jobNames], by decide, hshape.1, hshape.2⟩
        · exact ⟨"weather", by simp [jobNames], by decide, hshape.1, hshape.2⟩
      · exact ⟨"fitness", by simp [jobNames], by decide, hshape.1, hshape.2⟩
    rw [hset, planFeed_fixed_eval now s3 "energy" settings gap ts hmode hgap hts] at h4
    have hs4 : ps = ts.foldl (addTimeTrigger "energy" gap now) s3 := by
      injection h4 with h'
      exact h'.symm
    have hcr := foldl_addTime_creates "energy" gap now ts s3 s hh mm hmem hclock hpre
    rw [← hs4] at hcr
    exact hcr

theorem fixed_time_skipped_lemma (f : File) (now : DT) (ps : PlanState)
    (cfg settings : Dict) (name s : String) (ts : List J) (gap : Int)
    (hre : reschedule_all f now = .ok ps)
    (hcfg : load_config f = .ok cfg)
    (hname : name ∈ jobNames)
    (hset : dGet cfg name = some (J.obj settings))
    (hmode : dGet settings "mode" ≠ some (J.str "interval"))
    (hgap : pyIntOfJ ((dGet settings "days").getD (J.num 1)) = .ok gap)
    (hts : dGet settings "times" = some (J.arr ts))
    (hmem : J.str s ∈ ts)
    (hclock : parseClock s = none) :
    (name, J.str s) ∈ ps.warnings ∧
    ∀ tr ∈ ps.triggers, tr.id ≠ name ++ "_" ++ s := by
  have hplan : planConfig cfg now = .ok ps := by
    unfold reschedule_all at hre
    rw [hcfg, okBind] at hre
    exact hre
  constructor
  · -- the warning is recorded
    obtain ⟨s1, s2, s3, h1, h2, h3, h4⟩ := planConfig_dissect cfg now ps hplan
    fin_cases hname
    · rw [hset, planFeed_fixed_eval now ⟨[], []⟩ "dota" settings gap ts hmode hgap hts] at h1
      have hs1 : s1 = ts.foldl (addTimeTrigger "dota" gap now) ⟨[], []⟩ := by
        injection h1 with h'
        exact h'.symm
      have hw := foldl_addTime_warns "dota" gap now ts ⟨[], []⟩ s hmem hclock
      rw [← hs1] at hw
      obtain ⟨t2, w2, rfl, _⟩ := planFeed_new_triggers _ _ _ _ _ h2
      obtain ⟨t3, w3, rfl, _⟩ := planFeed_new_triggers _ _ _ _ _ h3
      obtain ⟨t4, w4, rfl, _⟩ := planFeed_new_triggers _ _ _ _ _ h4
      simp only [List.mem_append]
      exact Or.inl (Or.inl (Or.inl hw))
    · rw [hset, planFeed_fixed_eval now s1 "weather" settings gap ts hmode hgap hts] at h2
      have hs2 : s2 = ts.foldl (addTimeTrigger "weather" gap now) s1 := by
        injection h2 with h'
        exact h'.symm
      have hw := foldl_addTime_warns "weather" gap now ts s1 s hmem hclock
      rw [← hs2] at hw
      obtain ⟨t3, w3, rfl, _⟩ := planFeed_new_triggers _ _ _ _ _ h3
      obtain ⟨t4, w4, rfl, _⟩ := planFeed_new_triggers _ _ _ _ _ h4
      simp only [List.mem_append]
      exact Or.inl (Or.inl hw)
    · rw [hset, planFeed_fixed_eval now s2 "fitness" settings gap ts hmode hgap hts] at h3
      have hs3 : s3 = ts.foldl (addTimeTrigger "fitness" gap now) s2 := by
        injection h3 with h'
        exact h'.symm
      have hw := foldl_addTime_warns "fitness" gap now ts s2 s hmem hclock
      rw [← hs3] at hw
      obtain ⟨t4, w4, rfl, _⟩ := planFeed_new_triggers _ _ _ _ _ h4
      simp only [List.mem_append]
      exact Or.inl hw
    · rw [hset, planFeed_fixed_eval now s3 "energy" settings gap ts hmode hgap hts] at h4
      have hs4 : ps = ts.foldl (addTimeTrigger "energy" gap now) s3 := by
        injection h4 with h'
        exact h'.symm
      have hw := foldl_addTime_warns "energy" gap now ts s3 s hmem hclock
      rw [← hs4] at hw
      exact hw
  · -- and no trigger carries the malformed id
    intro tr htr hid
    obtain ⟨fd, hfd, hfeed, hdisj⟩ := planConfig_provenance cfg now ps hplan tr htr
    by_cases hfdn : fd = name
    · subst hfdn
      rcases hdisj with ⟨hidi, m, hcfgm, hmodem⟩ | ⟨tok, hh, mm, gap', hidf, hpc, _⟩
      · rw [hset] at hcfgm
        have hms : J.obj settings = J.obj m := by
          injection hcfgm
        have hms' : m = settings := by
          injection hms.symm
        rw [hms'] at hmodem
        exact hmode hmodem
      · rw [hidf] at hid
        have htok : tok = s := str_append_cancel (fd ++ "_") tok s hid
        rw [htok] at hpc
        rw [hclock] at hpc
        exact absurd hpc (by simp)
    · rcases hdisj with ⟨hidi, _⟩ | ⟨tok, hh, mm, gap', hidf, _, _⟩
      · rw [hidi, interval_id_eq] at hid
        exact job_id_ne fd hfd name hname hfdn "interval" s hid
      · rw [hidf] at hid
        exact job_id_ne fd hfd name hname hfdn tok s hid

theorem planFeed_interval_eval (now : DT) (ps : PlanState) (name : String)
    (settings : Dict) (minutes : Int)
    (hmode : dGet settings "mode" = some (J.str "interval"))
    (hmin : pyIntOfJ ((dGet settings "interval").getD (J.num 30)) = .ok minutes)
    (hnodup : ((ps.triggers.map Trigger.id).contains (name ++ "_interval")) = false) :
    planFeed now ps name (some (J.obj settings))
      = .ok { ps with triggers :=
          ps.triggers ++ [⟨name ++ "_interval", name, .interval minutes⟩] } := by
  rw [planFeed_obj_eval, hmode]
  show (pyIntOfJ ((dGet settings "interval").getD (J.num 30))).bind _ = _
  rw [hmin, okBind]
  simp only [hnodup]
  rw [if_neg Bool.false_ne_true]

theorem planConfig_ok (cfg : Dict) (now : DT)
    (hfeeds : ∀ fd ∈ jobNames, ∃ settings, dGet cfg fd = some (J.obj settings) ∧
      ((dGet settings "mode" = some (J.str "interval") ∧
        ∃ n, pyIntOfJ ((dGet settings "interval").getD (J.num 30)) = .ok n) ∨
       (dGet settings "mode" ≠ some (J.str "interval") ∧
        (∃ g, pyIntOfJ ((dGet settings "days").getD (J.num 1)) = .ok g) ∧
        ∃ ts, dGet settings "times" = some (J.arr ts)))) :
    ∃ ps, planConfig cfg now = .ok ps := by
  have hstep : ∀ fd, fd ∈ jobNames → ∀ ps : PlanState,
      (∀ tr ∈ ps.triggers, ∃ fd', fd' ∈ jobNames ∧ fd' ≠ fd ∧ tr.feed = fd' ∧
        ∃ tok, tr.id = (fd' ++ "_") ++ tok) →
      ∃ ps', planFeed now ps fd (dGet cfg fd) = .ok ps' := by
    intro fd hfd ps hsh
    obtain ⟨settings, hget, hcase⟩ := hfeeds fd hfd
    rw [hget]
    rcases hcase with ⟨hmode, n, hn⟩ | ⟨hmode, ⟨g, hg⟩, ⟨ts, hts⟩⟩
    · have hnot := pre_no_clash fd hfd "interval" ps.triggers hsh
      have hnodup : ((ps.triggers.map Trigger.id).contains (fd ++ "_interval")) = false := by
        rw [interval_id_eq]
        simpa using hnot
      exact ⟨_, planFeed_interval_eval now ps fd settings n hmode hn hnodup⟩
    · exact ⟨_, planFeed_fixed_eval now ps fd settings g ts hmode hg hts⟩
  obtain ⟨s1, h1⟩ := hstep "dota" (by simp [jobNames]) ⟨[], []⟩ (by simp)
  have shp1 : ∀ tr ∈ s1.triggers, tr.feed = "dota" ∧ ∃ tok, tr.id = ("dota" ++ "_") ++ tok := by
    intro tr htr
    rcases planFeed_shape_for _ _ _ _ _ h1 tr htr with h' | h'
    · simp at h'
    · exact h'
  obtain ⟨s2, h2⟩ := hstep "weather" (by simp [jobNames]) s1 (by
    intro tr htr
    obtain ⟨hfeed, tok, hid⟩ := shp1 tr htr
    exact ⟨"dota", by simp [jobNames], by decide, hfeed, tok, hid⟩)
  have shp2 : ∀ tr ∈ s2.triggers,
      (tr.feed = "dota" ∧ ∃ tok, tr.id = ("dota" ++ "_") ++ tok) ∨
      (tr.feed = "weather" ∧ ∃ tok, tr.id = ("weather" ++ "_") ++ tok) := by
    intro tr htr
    rcases planFeed_shape_for _ _ _ _ _ h2 tr htr with h' | h'
    · exact Or.inl (shp1 tr h')
    · exact Or.inr h'
  obtain ⟨s3, h3⟩ := hstep "fitness" (by simp [jobNames]) s2 (by
    intro tr htr
    rcases shp2 tr htr with ⟨hfeed, tok, hid⟩ | ⟨hfeed, tok, hid⟩
    · exact ⟨"dota", by simp [jobNames], by decide, hfeed, tok, hid⟩
    · exact ⟨"weather", by simp [jobNames], by decide, hfeed, tok, hid⟩)
  have shp3 : ∀ tr ∈ s3.triggers,
      (tr.feed = "dota" ∧ ∃ tok, tr.id = ("dota" ++ "_") ++ tok) ∨
      (tr.feed = "weather" ∧ ∃ tok, tr.id = ("weather" ++ "_") ++ tok) ∨
      (tr.feed = "fitness" ∧ ∃ tok, tr.id = ("fitness" ++ "_") ++ tok) := by
    intro tr htr
    rcases planFeed_shape_for _ _ _ _ _ h3 tr htr with h' | h'
    · rcases shp2 tr h' with h'' | h''
      · exact Or.inl h''
      · exact Or.inr (Or.inl h'')
    · exact Or.inr (Or.inr h')
  obtain ⟨s4, h4⟩ := hstep "energy" (by simp [jobNames]) s3 (by
    intro tr htr
    rcases shp3 tr htr with ⟨hfeed, tok, hid⟩ | ⟨hfeed, tok, hid⟩ | ⟨hfeed, tok, hid⟩
    · exact ⟨"dota", by simp [jobNames], by decide, hfeed, tok, hid⟩
    · exact ⟨"weather", by simp [jobNames], by decide, hfeed, tok, hid⟩
    · exact ⟨"fitness", by simp [jobNames], by decide, hfeed, tok, hid⟩)
  refine ⟨s4, ?_⟩
  rw [planConfig_eq, h1, ok_bind, h2, ok_bind, h3, ok_bind, h4, ok_bind]
  rfl

theorem errBind {α β : Type} (e : Unit) (g : α → Except Unit β) :
    (Except.error e : Except Unit α).bind g = .error () := rfl

theorem addTime_str_eval (name : String) (gap : Int) (now : DT) (ps : PlanState)
    (s : String) :
    addTimeTrigger name gap now ps (J.str s)
      = (match parseClock s with
         | some (h, m) =>
            if (ps.triggers.map Trigger.id).contains (name ++ "_" ++ s) then
              { ps with warnings := ps.warnings ++ [(name, J.str s)] }
            else { ps with triggers := ps.triggers ++
                [⟨name ++ "_" ++ s, name, .fixedDays gap (anchorOf now h m)⟩] }
         | none => { ps with warnings := ps.warnings ++ [(name, J.str s)] }) := rfl

theorem addTime_str_none (name : String) (gap : Int) (now : DT) (ps : PlanState)
    (s : String) (h : parseClock s = none) :
    addTimeTrigger name gap now ps (J.str s)
      = { ps with warnings := ps.warnings ++ [(name, J.str s)] } := by
  rw [addTime_str_eval, h]

theorem addTime_str_some (name : String) (gap : Int) (now : DT) (ps : PlanState)
    (s : String) (hh mm : Nat) (h : parseClock s = some (hh, mm)) :
    addTimeTrigger name gap now ps (J.str s)
      = if (ps.triggers.map Trigger.id).contains (name ++ "_" ++ s) then
          { ps with warnings := ps.warnings ++ [(name, J.str s)] }
        else { ps with triggers := ps.triggers ++
            [⟨name ++ "_" ++ s, name, .fixedDays gap (anchorOf now hh mm)⟩] } := by
  rw [addTime_str_eval, h]

theorem addTime_nonstr (name : String) (gap : Int) (now : DT) (ps : PlanState)
    (e : J) (h : ∀ s, e ≠ J.str s) :
    addTimeTrigger name gap now ps e
      = { ps with warnings := ps.warnings ++ [(name, e)] } := by
  cases e
  case str s => exact absurd rfl (h s)
  all_goals rfl

theorem addTime_rel (name : String) (gap : Int) (now1 now2 : DT) (ps1 ps2 : PlanState)
    (e : J)
    (hids : ps1.triggers.map Trigger.id = ps2.triggers.map Trigger.id)
    (hw : ps1.warnings = ps2.warnings) :
    ((addTimeTrigger name gap now1 ps1 e).triggers.map Trigger.id
      = (addTimeTrigger name gap now2 ps2 e).triggers.map Trigger.id) ∧
    ((addTimeTrigger name gap now1 ps1 e).warnings
      = (addTimeTrigger name gap now2 ps2 e).warnings) := by
  cases e with
  | str s =>
      cases hclock : parseClock s with
      | none =>
          rw [addTime_str_none name gap now1 ps1 s hclock,
            addTime_str_none name gap now2 ps2 s hclock]
          exact ⟨hids, by rw [hw]⟩
      | some pr =>
          obtain ⟨hh, mm⟩ := pr
          rw [addTime_str_some name gap now1 ps1 s hh mm hclock,
            addTime_str_some name gap now2 ps2 s hh mm hclock, hids]
          by_cases hc : ((ps2.triggers.map Trigger.id).contains (name ++ "_" ++ s)) = true
          · rw [if_pos hc, if_pos hc]
            exact ⟨hids, by rw [hw]⟩
          · rw [if_neg hc, if_neg hc]
            constructor
            · simp [hids]
            · exact hw
  | null =>
      rw [addTime_nonstr name gap now1 ps1 _ (fun s h => J.noConfusion h),
        addTime_nonstr name gap now2 ps2 _ (fun s h => J.noConfusion h)]
      exact ⟨hids, by rw [hw]⟩
  | bool b =>
      rw [addTime_nonstr name gap now1 ps1 _ (fun s h => J.noConfusion h),
        addTime_nonstr name gap now2 ps2 _ (fun s h => J.noConfusion h)]
      exact ⟨hids, by rw [hw]⟩
  | num n =>
      rw [addTime_nonstr name gap now1 ps1 _ (fun s h => J.noConfusion h),
        addTime_nonstr name gap now2 ps2 _ (fun s h => J.noConfusion h)]
      exact ⟨hids, by rw [hw]⟩
  | arr xs =>
      rw [addTime_nonstr name gap now1 ps1 _ (fun s h => J.noConfusion h),
        addTime_nonstr name gap now2 ps2 _ (fun s h => J.noConfusion h)]
      exact ⟨hids, by rw [hw]⟩
  | obj m =>
      rw [addTime_nonstr name gap now1 ps1 _ (fun s h => J.noConfusion h),
        addTime_nonstr name gap now2 ps2 _ (fun s h => J.noConfusion h)]
      exact ⟨hids, by rw [hw]⟩

theorem foldl_addTime_rel (name : String) (gap : Int) (now1 now2 : DT) :
    ∀ (es : List J) (ps1 ps2 : PlanState),
      ps1.triggers.map Trigger.id = ps2.triggers.map Trigger.id →
      ps1.warnings = ps2.warnings →
      ((es.foldl (addTimeTrigger name gap now1) ps1).triggers.map Trigger.id
        = (es.foldl (addTimeTrigger name gap now2) ps2).triggers.map Trigger.id) ∧
      ((es.foldl (addTimeTrigger name gap now1) ps1).warnings
        = (es.foldl (addTimeTrigger name gap now2) ps2).warnings) := by
  intro es
  induction es with
  | nil => intro ps1 ps2 hids hw; exact ⟨hids, hw⟩
  | cons e rest ih =>
      intro ps1 ps2 hids hw
      rw [List.foldl_cons, List.foldl_cons]
      obtain ⟨h1, h2⟩ := addTime_rel name gap now1 now2 ps1 ps2 e hids hw
      exact ih _ _ h1 h2

theorem planFeed_rel (now1 now2 : DT) (name : String) (sj : Option J) :
    ∀ ps1 ps2 : PlanState,
      ps1.triggers.map Trigger.id = ps2.triggers.map Trigger.id →
      ps1.warnings = ps2.warnings →
      (planFeed now1 ps1 name sj = .error () ∧ planFeed now2 ps2 name sj = .error ()) ∨
      (∃ q1 q2, planFeed now1 ps1 name sj = .ok q1 ∧ planFeed now2 ps2 name sj = .ok q2 ∧
        q1.triggers.map Trigger.id = q2.triggers.map Trigger.id ∧
        q1.warnings = q2.warnings) := by
  intro ps1 ps2 hids hw
  rcases sj with _ | v
  · exact Or.inr ⟨ps1, ps2, planFeed_eval_none now1 ps1 name,
      planFeed_eval_none now2 ps2 name, hids, hw⟩
  · cases v with
    | obj settings =>
        by_cases hcmode : (match dGet settings "mode" with
            | some (J.str x) => x == "interval"
            | _ => false) = true
        · cases hmin : pyIntOfJ ((dGet settings "interval").getD (J.num 30)) with
          | error e =>
              refine Or.inl ⟨?_, ?_⟩ <;>
                rw [planFeed_obj_eval, if_pos hcmode, hmin, errBind]
          | ok n =>
              by_cases hdup : ((ps2.triggers.map Trigger.id).contains (name ++ "_interval"))
                  = true
              · have hdup1 : ((ps1.triggers.map Trigger.id).contains (name ++ "_interval"))
                    = true := by rw [hids]; exact hdup
                refine Or.inl ⟨?_, ?_⟩
                · rw [planFeed_obj_eval, if_pos hcmode, hmin, okBind, if_pos hdup1]
                · rw [planFeed_obj_eval, if_pos hcmode, hmin, okBind, if_pos hdup]
              · have hdup1 : ¬ ((ps1.triggers.map Trigger.id).contains (name ++ "_interval"))
                    = true := by rw [hids]; exact hdup
                refine Or.inr
                  ⟨{ ps1 with triggers :=
                      ps1.triggers ++ [⟨name ++ "_interval", name, .interval n⟩] },
                   { ps2 with triggers :=
                      ps2.triggers ++ [⟨name ++ "_interval", name, .interval n⟩] },
                   ?_, ?_, ?_, ?_⟩
                · rw [planFeed_obj_eval, if_pos hcmode, hmin, okBind, if_neg hdup1]
                · rw [planFeed_obj_eval, if_pos hcmode, hmin, okBind, if_neg hdup]
                · simp [hids]
                · exact hw
        · cases hgap : pyIntOfJ ((dGet settings "days").getD (J.num 1)) with
          | error e =>
              refine Or.inl ⟨?_, ?_⟩ <;>
                rw [planFeed_obj_eval, if_neg hcmode, hgap, errBind]
          | ok g =>
              cases hel : timesElems (dGet settings "times") with
              | error e =>
                  refine Or.inl ⟨?_, ?_⟩ <;>
                    rw [planFeed_obj_eval, if_neg hcmode, hgap, okBind, hel, errBind]
              | ok es =>
                  obtain ⟨h1, h2⟩ := foldl_addTime_rel name g now1 now2 es ps1 ps2 hids hw
                  refine Or.inr ⟨es.foldl (addTimeTrigger name g now1) ps1,
                    es.foldl (addTimeTrigger name g now2) ps2, ?_, ?_, h1, h2⟩
                  · rw [planFeed_obj_eval, if_neg hcmode, hgap, okBind, hel, okBind]
                  · rw [planFeed_obj_eval, if_neg hcmode, hgap, okBind, hel, okBind]
    | null =>
        exact Or.inl ⟨rfl, rfl⟩
    | bool b =>
        exact Or.inl ⟨rfl, rfl⟩
    | num n =>
        exact Or.inl ⟨rfl, rfl⟩
    | str s =>
        exact Or.inl ⟨rfl, rfl⟩
    | arr xs =>
        exact Or.inl ⟨rfl, rfl⟩

theorem planNames_rel (now1 now2 : DT) (cfg : Dict) :
    ∀ (names : List String) (ps1 ps2 : PlanState),
      ps1.triggers.map Trigger.id = ps2.triggers.map Trigger.id →
      ps1.warnings = ps2.warnings →
      (names.foldlM (fun ps name => planFeed now1 ps name (dGet cfg name)) ps1).map
          (fun ps => (ps.triggers.map Trigger.id, ps.warnings))
        = (names.foldlM (fun ps name => planFeed now2 ps name (dGet cfg name)) ps2).map
          (fun ps => (ps.triggers.map Trigger.id, ps.warnings)) := by
  intro names
  induction names with
  | nil =>
      intro ps1 ps2 hids hw
      show Except.ok (ps1.triggers.map Trigger.id, ps1.warnings)
          = Except.ok (ps2.triggers.map Trigger.id, ps2.warnings)
      rw [hids, hw]
  | cons n rest ih =>
      intro ps1 ps2 hids hw
      rw [List.foldlM_cons, List.foldlM_cons]
      rcases planFeed_rel now1 now2 n (dGet cfg n) ps1 ps2 hids hw with
        ⟨he1, he2⟩ | ⟨q1, q2, ho1, ho2, hq, hqw⟩
      · rw [he1, he2]
        rfl
      · rw [ho1, ho2, ok_bind, ok_bind]
        exact ih q1 q2 hq hqw

theorem planFeed_obj_congr (now : DT) (ps : PlanState) (name : String) (m1 m2 : Dict)
    (hm : dGet m1 "mode" = dGet m2 "mode")
    (hi : dGet m1 "interval" = dGet m2 "interval")
    (hd : dGet m1 "days" = dGet m2 "days")
    (ht : dGet m1 "times" = dGet m2 "times") :
    planFeed now ps name (some (J.obj m1)) = planFeed now ps name (some (J.obj m2)) := by
  rw [planFeed_obj_eval, planFeed_obj_eval, hm, hi, hd, ht]

/-! ## Claim theorems -/

/-- C10: if the persisted run-history file is missing, or exists but cannot
be read or parsed, `load_logs` never raises (it is a total function in the
model, the source's bare `except` catching everything) and returns the
mapping binding each of the four known feed names to an empty sequence. -/
theorem load_logs_missing_or_corrupt :
    load_logs File.missing
      = J.obj [("dota", J.arr []), ("weather", J.arr []),
               ("fitness", J.arr []), ("energy", J.arr [])] ∧
    load_logs File.corrupt
      = J.obj [("dota", J.arr []), ("weather", J.arr []),
               ("fitness", J.arr []), ("energy", J.arr [])] :=
  ⟨rfl, rfl⟩

/-- C7: for every persisted run log (each feed bound to a list), `read_all`
returns each bare-string entry upgraded in place to
`{time: that string, status: Legacy, output: "No details available."}`,
returns structured entries unchanged, and leaves the stored file
untouched. -/
theorem read_all_legacy_shim (kvs : Dict)
    (hshape : ∀ p ∈ kvs, ∃ xs, p.2 = J.arr xs) :
    (read_all (File.json (J.obj kvs))).2 = File.json (J.obj kvs) ∧
    (read_all (File.json (J.obj kvs))).1
      = J.obj (kvs.map (fun p => (p.1, migArr p.2))) ∧
    (∀ k xs, dGet kvs k = some (J.arr xs) →
      dGet (kvs.map (fun p => (p.1, migArr p.2))) k
        = some (J.arr (xs.map upgradeEntry))) ∧
    (∀ s, upgradeEntry (J.str s)
      = J.obj [("time", J.str s), ("status", J.str "Legacy"),
               ("output", J.str "No details available.")]) ∧
    (∀ m, upgradeEntry (J.obj m) = J.obj m) := by
  refine ⟨rfl, ?_, ?_, fun s => rfl, fun m => rfl⟩
  · show load_logs (File.json (J.obj kvs)) = _
    exact load_logs_obj kvs hshape
  · intro k xs hk
    rw [dGet_map, hk]
    rfl

/-- Witness for C7: a log with one legacy string entry and one structured
entry round-trips as claimed. -/
theorem read_all_legacy_shim_witness :
    (∀ p ∈ [("dota", J.arr [J.str "12:00", mkEntry "t" "Success" "o"])],
       ∃ xs, (p : String × J).2 = J.arr xs) ∧
    (read_all (File.json (J.obj
        [("dota", J.arr [J.str "12:00", mkEntry "t" "Success" "o"])]))).1
      = J.obj [("dota", J.arr
          [J.obj [("time", J.str "12:00"), ("status", J.str "Legacy"),
                  ("output", J.str "No details available.")],
           mkEntry "t" "Success" "o"])] := by
  have hshape : ∀ p ∈ [("dota", J.arr [J.str "12:00", mkEntry "t" "Success" "o"])],
      ∃ xs, (p : String × J).2 = J.arr xs := by
    intro p hp
    rcases List.mem_singleton.mp hp with rfl
    exact ⟨_, rfl⟩
  exact ⟨hshape, (read_all_legacy_shim _ hshape).2.1⟩

/-- C3: appending to a feed's run log inserts the new entry at the front,
truncates to 10 and persists the whole structure; after any sequence of at
least 10 appends, the feed reads back as exactly the 10 most recent
entries, newest first. -/
theorem run_log_bounded_history (name : String) (f : File) (hf : goodLog f = true) :
    (∀ status output ts, ∃ f', log_run name status output ts f = .ok f' ∧
       (∃ kvs, f' = File.json (J.obj kvs)) ∧
       feedEntries f' name = (mkEntry ts status output :: feedEntries f name).take 10 ∧
       (∀ n', n' ≠ name → feedEntries f' n' = feedEntries f n')) ∧
    (∀ items : List (String × String × String), 10 ≤ items.length →
       ∃ f', doAppends name items f = .ok f' ∧
         feedEntries f' name
           = ((items.map (fun it => mkEntry it.2.2 it.1 it.2.1)).reverse).take 10) := by
  constructor
  · intro status output ts
    obtain ⟨f', h1, h2, h3, h4, h5⟩ := log_run_good name status output ts f hf
    exact ⟨f', h1, h5, h3, h4⟩
  · intro items hlen
    obtain ⟨f', hda, _, _, hcons, _⟩ := doAppends_good name items f hf
    have hne : items ≠ [] := by
      intro h
      rw [h] at hlen
      simp at hlen
    refine ⟨f', hda, ?_⟩
    rw [hcons hne, List.take_append_of_le_length]
    simpa using hlen

/-- Witness for C3: ten appends to an initially missing log file read back
as the ten entries, newest first. -/
theorem run_log_bounded_history_witness :
    goodLog File.missing = true ∧
    10 ≤ (List.replicate 10 (("Success", "o", "t") : String × String × String)).length ∧
    (∃ f', doAppends "dota"
        (List.replicate 10 (("Success", "o", "t") : String × String × String))
        File.missing = .ok f' ∧
      feedEntries f' "dota"
        = (((List.replicate 10 (("Success", "o", "t") : String × String × String)).map
            (fun it => mkEntry it.2.2 it.1 it.2.1)).reverse).take 10) :=
  ⟨rfl, by decide,
    (run_log_bounded_history "dota" File.missing rfl).2 _ (by decide)⟩

theorem run_job_eval (name : String) (func : Adapter) (force : Bool) (ts : String)
    (st : St) (cfg : Dict) (g : Bool)
    (hcfg : load_config st.configFile = .ok cfg)
    (hgatev : (if force then pure true else Except.map optTruthy (enabledVal cfg name))
      = (Except.ok g : Except Unit Bool)) :
    run_job name func force ts st =
      if g then
        (match func cfg with
         | .ok emitted =>
            log_run name "Success" (joinLines (headerLine name force :: emitted)) ts
              st.logFile
         | .err emitted msg =>
            log_run name "Failed"
              (joinLines (headerLine name force :: (emitted ++ [failLine name msg]))) ts
              st.logFile).bind
          (fun lf => .ok ⟨⟨st.configFile, lf⟩, 1, 1⟩)
      else .ok ⟨st, 0, 0⟩ := by
  unfold run_job
  rw [hcfg, ok_bind]
  simp only []
  cases force
  · rw [if_neg Bool.false_ne_true]
    have hm : Except.map optTruthy (enabledVal cfg name) = Except.ok g := hgatev
    rw [hm, ok_bind]
    cases g
    · rw [if_neg Bool.false_ne_true, if_neg Bool.false_ne_true]
      rfl
    · rw [if_pos rfl, if_pos rfl]
      cases func cfg <;> rfl
  · rw [if_pos rfl]
    have h2 : (Except.ok true : Except Unit Bool) = Except.ok g := hgatev
    have h3 : g = true := by
      injection h2 with h
      exact h.symm
    subst h3
    show ((Except.ok true : Except Unit Bool) >>= _) = _
    rw [ok_bind, if_pos rfl, if_pos rfl]
    cases func cfg <;> rfl

/-- C1: when the gate is open and the adapter raises after emitting some
lines, `run_job` swallows the error (it returns normally), appends exactly
one `Failed` entry for that feed whose output is the captured buffer —
the header line, everything the adapter printed, and the error-message
line — and touches nothing else; when the adapter returns it appends one
`Success` entry with the captured buffer. -/
theorem run_job_swallows_failure
    (name : String) (func : Adapter) (force : Bool) (ts : String) (st : St) (cfg : Dict)
    (hcfg : load_config st.configFile = .ok cfg)
    (hlog : goodLog st.logFile = true)
    (hgate : force = true ∨ ∃ ev, enabledVal cfg name = .ok ev ∧ optTruthy ev = true) :
    (∀ emitted msg, func cfg = .err emitted msg →
      ∃ res, run_job name func force ts st = .ok res ∧
        res.invocations = 1 ∧ res.appends = 1 ∧
        res.state.configFile = st.configFile ∧
        feedEntries res.state.logFile name
          = (mkEntry ts "Failed"
               (joinLines (headerLine name force :: (emitted ++ [failLine name msg])))
             :: feedEntries st.logFile name).take 10 ∧
        (∀ n', n' ≠ name → feedEntries res.state.logFile n' = feedEntries st.logFile n')) ∧
    (∀ emitted, func cfg = .ok emitted →
      ∃ res, run_job name func force ts st = .ok res ∧
        res.invocations = 1 ∧ res.appends = 1 ∧
        res.state.configFile = st.configFile ∧
        feedEntries res.state.logFile name
          = (mkEntry ts "Success" (joinLines (headerLine name force :: emitted))
             :: feedEntries st.logFile name).take 10 ∧
        (∀ n', n' ≠ name → feedEntries res.state.logFile n' = feedEntries st.logFile n')) := by
  have hgatev : (if force then pure true else Except.map optTruthy (enabledVal cfg name))
      = (Except.ok true : Except Unit Bool) := by
    rcases hgate with rfl | ⟨ev, hev, htr⟩
    · rfl
    · cases force
      · show Except.map optTruthy (enabledVal cfg name) = _
        rw [hev]
        show Except.ok (optTruthy ev) = _
        rw [htr]
      · rfl
  constructor
  · intro emitted msg hfunc
    obtain ⟨f', hlr, _, hfe, hoth, _⟩ := log_run_good name "Failed"
      (joinLines (headerLine name force :: (emitted ++ [failLine name msg]))) ts
      st.logFile hlog
    refine ⟨⟨⟨st.configFile, f'⟩, 1, 1⟩, ?_, rfl, rfl, rfl, hfe, hoth⟩
    rw [run_job_eval name func force ts st cfg true hcfg hgatev, if_pos rfl]
    simp only [hfunc]
    rw [hlr]
    rfl
  · intro emitted hfunc
    obtain ⟨f', hlr, _, hfe, hoth, _⟩ := log_run_good name "Success"
      (joinLines (headerLine name force :: emitted)) ts st.logFile hlog
    refine ⟨⟨⟨st.configFile, f'⟩, 1, 1⟩, ?_, rfl, rfl, rfl, hfe, hoth⟩
    rw [run_job_eval name func force ts st cfg true hcfg hgatev, if_pos rfl]
    simp only [hfunc]
    rw [hlr]
    rfl

/-- Witness for C1: the "energy" adapter prints `Fetching...` and then
raises with message `timeout` under a manual trigger on fresh files. -/
theorem run_job_swallows_failure_witness :
    (load_config File.missing = .ok defaults ∧ goodLog File.missing = true ∧
      ((true : Bool) = true ∨ ∃ ev, enabledVal defaults "energy" = .ok ev ∧
        optTruthy ev = true)) ∧
    (∃ res, run_job "energy" (fun _ => .err ["Fetching..."] "timeout") true "t0"
        ⟨File.missing, File.missing⟩ = .ok res ∧
      res.invocations = 1 ∧ res.appends = 1 ∧
      res.state.configFile = File.missing ∧
      feedEntries res.state.logFile "energy"
        = (mkEntry "t0" "Failed"
             (joinLines (headerLine "energy" true ::
               (["Fetching..."] ++ [failLine "energy" "timeout"])))
           :: feedEntries File.missing "energy").take 10 ∧
      (∀ n', n' ≠ "energy" →
        feedEntries res.state.logFile n' = feedEntries File.missing n')) :=
  ⟨⟨rfl, rfl, Or.inl rfl⟩,
    (run_job_swallows_failure "energy" (fun _ => .err ["Fetching..."] "timeout") true "t0"
      ⟨File.missing, File.missing⟩ defaults rfl rfl (Or.inl rfl)).1
      ["Fetching..."] "timeout" rfl⟩

/-- C2: `run_job` invokes the adapter and appends a run-log entry exactly
when `force` is set or the feed's `enabled` flag in the configuration read
at invocation start is true; with `force` unset and the flag unset it is a
complete no-op, and with `force` set it runs regardless of the flag. -/
theorem run_job_gating
    (name : String) (func : Adapter) (force : Bool) (ts : String) (st : St) (cfg : Dict)
    (ev : Option J)
    (hcfg : load_config st.configFile = .ok cfg)
    (hlog : goodLog st.logFile = true)
    (hev : enabledVal cfg name = .ok ev)
    (hbool : ev = none ∨ ∃ b, ev = some (J.bool b)) :
    ∃ res, run_job name func force ts st = .ok res ∧
      ((res.invocations = 1 ∧ res.appends = 1) ↔
        (force = true ∨ ev = some (J.bool true))) ∧
      (force = false → ev ≠ some (J.bool true) → res = ⟨st, 0, 0⟩) ∧
      (force = true → res.invocations = 1 ∧ res.appends = 1) := by
  have hgatev : (if force then pure true else Except.map optTruthy (enabledVal cfg name))
      = (Except.ok (force || optTruthy ev) : Except Unit Bool) := by
    cases force
    · show Except.map optTruthy (enabledVal cfg name) = _
      rw [hev]
      rfl
    · rfl
  cases hg : (force || optTruthy ev) with
  | false =>
      rw [hg] at hgatev
      have hforce : force = false := by
        cases force
        · rfl
        · simp at hg
      have hne : ev ≠ some (J.bool true) := by
        intro he
        rw [hforce, he] at hg
        simp [optTruthy, jTruthy] at hg
      refine ⟨⟨st, 0, 0⟩, ?_, ?_, fun _ _ => rfl, ?_⟩
      · rw [run_job_eval name func force ts st cfg false hcfg hgatev,
          if_neg Bool.false_ne_true]
      · constructor
        · intro h
          simp at h
        · intro h
          rcases h with h | h
          · rw [hforce] at h
            exact absurd h (by simp)
          · exact absurd h hne
      · intro hf
        rw [hf] at hforce
        simp at hforce
  | true =>
      rw [hg] at hgatev
      have hor : force = true ∨ ev = some (J.bool true) := by
        cases force
        · right
          rcases hbool with rfl | ⟨b, rfl⟩
          · simp [optTruthy] at hg
          · cases b
            · simp [optTruthy, jTruthy] at hg
            · rfl
        · exact Or.inl rfl
      have hmain : ∀ res : RunResult, res.invocations = 1 → res.appends = 1 →
          (((res.invocations = 1 ∧ res.appends = 1) ↔
            (force = true ∨ ev = some (J.bool true))) ∧
          (force = false → ev ≠ some (J.bool true) → res = ⟨st, 0, 0⟩) ∧
          (force = true → res.invocations = 1 ∧ res.appends = 1)) := by
        intro res h1 h2
        refine ⟨iff_of_true ⟨h1, h2⟩ hor, ?_, fun _ => ⟨h1, h2⟩⟩
        intro hforce hne
        rcases hor with h | h
        · rw [hforce] at h
          exact absurd h (by simp)
        · exact absurd h hne
      rcases hfo : func cfg with emitted | ⟨emitted, msg⟩
      · obtain ⟨f', hlr, _, _, _, _⟩ := log_run_good name "Success"
          (joinLines (headerLine name force :: emitted)) ts st.logFile hlog
        refine ⟨⟨⟨st.configFile, f'⟩, 1, 1⟩, ?_, hmain _ rfl rfl⟩
        rw [run_job_eval name func force ts st cfg true hcfg hgatev, if_pos rfl]
        simp only [hfo]
        rw [hlr]
        rfl
      · obtain ⟨f', hlr, _, _, _, _⟩ := log_run_good name "Failed"
          (joinLines (headerLine name force :: (emitted ++ [failLine name msg]))) ts
          st.logFile hlog
        refine ⟨⟨⟨st.configFile, f'⟩, 1, 1⟩, ?_, hmain _ rfl rfl⟩
        rw [run_job_eval name func force ts st cfg true hcfg hgatev, if_pos rfl]
        simp only [hfo]
        rw [hlr]
        rfl

/-- Witness for C2: with `forced` unset and the feed disabled (the
defaults), `run_job` performs zero invocations and zero appends. -/
theorem run_job_gating_witness :
    (load_config File.missing = .ok defaults ∧ goodLog File.missing = true ∧
      enabledVal defaults "weather" = .ok (some (J.bool false)) ∧
      ((some (J.bool false) : Option J) = none ∨
        ∃ b, (some (J.bool false) : Option J) = some (J.bool b))) ∧
    (∃ res, run_job "weather" (fun _ => .ok []) false "t0"
        ⟨File.missing, File.missing⟩ = .ok res ∧
      ((res.invocations = 1 ∧ res.appends = 1) ↔
        ((false : Bool) = true ∨ (some (J.bool false) : Option J) = some (J.bool true))) ∧
      ((false : Bool) = false → (some (J.bool false) : Option J) ≠ some (J.bool true) →
        res = ⟨⟨File.missing, File.missing⟩, 0, 0⟩) ∧
      ((false : Bool) = true → res.invocations = 1 ∧ res.appends = 1)) :=
  ⟨⟨rfl, rfl, rfl, Or.inr ⟨false, rfl⟩⟩,
    run_job_gating "weather" (fun _ => .ok []) false "t0" ⟨File.missing, File.missing⟩
      defaults (some (J.bool false)) rfl rfl rfl (Or.inr ⟨false, rfl⟩)⟩

/-- C5: for every feed in fixed-times mode and every well-formed "HH:MM"
string in its times list, planning creates the trigger `{feed}_{time}`
anchored at today's occurrence of that wall-clock time if it is still
ahead at planning time, else tomorrow's, recurring every `days` days; and
a feed's `enabled` flag is never read by the planner, so it cannot affect
which triggers are planned. -/
theorem fixed_times_planning :
    (∀ (f : File) (now : DT) (ps : PlanState) (cfg settings : Dict)
       (name s : String) (ts : List J) (hh mm : Nat) (gap : Int),
      reschedule_all f now = .ok ps →
      load_config f = .ok cfg →
      name ∈ jobNames →
      dGet cfg name = some (J.obj settings) →
      dGet settings "mode" ≠ some (J.str "interval") →
      pyIntOfJ ((dGet settings "days").getD (J.num 1)) = .ok gap →
      dGet settings "times" = some (J.arr ts) →
      J.str s ∈ ts →
      parseClock s = some (hh, mm) →
      ∃ tr ∈ ps.triggers, tr.id = name ++ "_" ++ s ∧ tr.feed = name ∧
        tr.rule = .fixedDays gap (anchorOf now hh mm)) ∧
    (∀ (cfg : Dict) (now : DT) (name : String) (m : Dict) (v : J),
      dGet cfg name = some (J.obj m) →
      planConfig (dSet cfg name (J.obj (dSet m "enabled" v))) now = planConfig cfg now) := by
  constructor
  · intro f now ps cfg settings name s ts hh mm gap hre hcfg hname hset hmode hgap hts
      hmem hclock
    exact ⟨⟨name ++ "_" ++ s, name, .fixedDays gap (anchorOf now hh mm)⟩,
      fixed_trigger_created f now ps cfg settings name s ts hh mm gap hre hcfg hname
        hset hmode hgap hts hmem hclock, rfl, rfl, rfl⟩
  · intro cfg now name m v hget
    have hfeed : ∀ (fd : String) (ps' : PlanState),
        planFeed now ps' fd (dGet (dSet cfg name (J.obj (dSet m "enabled" v))) fd)
          = planFeed now ps' fd (dGet cfg fd) := by
      intro fd ps'
      by_cases hfd : name = fd
      · subst hfd
        rw [dGet_dSet_self, hget]
        apply planFeed_obj_congr
        · rw [dGet_dSet_ne m "enabled" _ v (by decide)]
        · rw [dGet_dSet_ne m "enabled" _ v (by decide)]
        · rw [dGet_dSet_ne m "enabled" _ v (by decide)]
        · rw [dGet_dSet_ne m "enabled" _ v (by decide)]
      · rw [dGet_dSet_ne cfg name fd _ hfd]
    rw [planConfig_eq, planConfig_eq]
    simp only [hfeed]

/-- Witness for C5: a fitness feed with fixed times 08:00 and 22:00
planned at 09:00 on day 5 gets `fitness_08:00` anchored tomorrow. -/
theorem fixed_times_planning_witness :
    (reschedule_all (File.json (J.obj [("fitness", J.obj
        [("mode", J.str "fixed"), ("times", J.arr [J.str "08:00", J.str "22:00"]),
         ("days", J.num 1)])])) ⟨5, 540⟩
      = .ok ⟨[⟨"dota_interval", "dota", .interval 15⟩,
              ⟨"weather_interval", "weather", .interval 30⟩,
              ⟨"fitness_08:00", "fitness", .fixedDays 1 ⟨6, 480⟩⟩,
              ⟨"fitness_22:00", "fitness", .fixedDays 1 ⟨5, 1320⟩⟩,
              ⟨"energy_interval", "energy", .interval 60⟩], []⟩) ∧
    ("fitness" ∈ jobNames) ∧
    (parseClock "08:00" = some (8, 0)) ∧
    (∃ tr ∈ (PlanState.mk [⟨"dota_interval", "dota", .interval 15⟩,
              ⟨"weather_interval", "weather", .interval 30⟩,
              ⟨"fitness_08:00", "fitness", .fixedDays 1 ⟨6, 480⟩⟩,
              ⟨"fitness_22:00", "fitness", .fixedDays 1 ⟨5, 1320⟩⟩,
              ⟨"energy_interval", "energy", .interval 60⟩] []).triggers,
      tr.id = "fitness" ++ "_" ++ "08:00" ∧ tr.feed = "fitness" ∧
      tr.rule = .fixedDays 1 (anchorOf ⟨5, 540⟩ 8 0)) := by
  refine ⟨rfl, by decide, rfl, ?_⟩
  exact fixed_times_planning.1
    (File.json (J.obj [("fitness", J.obj
      [("mode", J.str "fixed"), ("times", J.arr [J.str "08:00", J.str "22:00"]),
       ("days", J.num 1)])])) ⟨5, 540⟩ _
    [("fitness", J.obj [("mode", J.str "fixed"),
        ("times", J.arr [J.str "08:00", J.str "22:00"]), ("days", J.num 1),
        ("enabled", J.bool false), ("interval", J.num 60)]),
     ("dota", J.obj [("enabled", J.bool false), ("mode", J.str "interval"),
        ("interval", J.num 15), ("times", J.arr [J.str "08:00"]), ("days", J.num 1)]),
     ("weather", J.obj [("enabled", J.bool false), ("mode", J.str "interval"),
        ("interval", J.num 30), ("times", J.arr [J.str "10:00", J.str "14:00"]),
        ("days", J.num 1)]),
     ("energy", J.obj [("enabled", J.bool false), ("mode", J.str "interval"),
        ("interval", J.num 60), ("times", J.arr [J.str "08:00"]), ("days", J.num 3)]),
     ("system", J.obj [("gateway_ip", J.str "192.168.220.206"),
        ("store_code", J.str "")])]
    [("mode", J.str "fixed"), ("times", J.arr [J.str "08:00", J.str "22:00"]),
     ("days", J.num 1), ("enabled", J.bool false), ("interval", J.num 60)]
    "fitness" "08:00" [J.str "08:00", J.str "22:00"] 8 0 1
    rfl rfl (by decide) rfl
    (by
      intro h
      have h2 : (some (J.str "fixed") : Option J) = some (J.str "interval") := h
      injection h2 with h3
      injection h3 with h4
      exact absurd h4 (by decide))
    rfl rfl (List.mem_cons_self _ _) rfl

/-- C6: a malformed time string in a fixed-times feed is skipped — a
warning is recorded for exactly that feed and string, no trigger with its
id exists — while every well-formed time string of that feed and of every
other fixed-times feed still gets its trigger; and planning never aborts
because of the content of a time string: it completes whenever each
feed's mode/interval/days/times fields are well-shaped, whatever strings
the times lists hold. -/
theorem malformed_time_skipped :
    (∀ (f : File) (now : DT) (ps : PlanState) (cfg settings : Dict)
       (name s : String) (ts : List J) (gap : Int),
      reschedule_all f now = .ok ps →
      load_config f = .ok cfg →
      name ∈ jobNames →
      dGet cfg name = some (J.obj settings) →
      dGet settings "mode" ≠ some (J.str "interval") →
      pyIntOfJ ((dGet settings "days").getD (J.num 1)) = .ok gap →
      dGet settings "times" = some (J.arr ts) →
      J.str s ∈ ts →
      parseClock s = none →
      ((name, J.str s) ∈ ps.warnings ∧
       (∀ tr ∈ ps.triggers, tr.id ≠ name ++ "_" ++ s) ∧
       (∀ (name' s' : String) (settings' : Dict) (ts' : List J) (hh mm : Nat)
          (gap' : Int),
         name' ∈ jobNames →
         dGet cfg name' = some (J.obj settings') →
         dGet settings' "mode" ≠ some (J.str "interval") →
         pyIntOfJ ((dGet settings' "days").getD (J.num 1)) = .ok gap' →
         dGet settings' "times" = some (J.arr ts') →
         J.str s' ∈ ts' →
         parseClock s' = some (hh, mm) →
         ∃ tr ∈ ps.triggers, tr.id = name' ++ "_" ++ s' ∧ tr.feed = name' ∧
           tr.rule = .fixedDays gap' (anchorOf now hh mm)))) ∧
    (∀ (f : File) (now : DT) (cfg : Dict),
      load_config f = .ok cfg →
      (∀ fd ∈ jobNames, ∃ settings, dGet cfg fd = some (J.obj settings) ∧
        ((dGet settings "mode" = some (J.str "interval") ∧
          ∃ n, pyIntOfJ ((dGet settings "interval").getD (J.num 30)) = .ok n) ∨
         (dGet settings "mode" ≠ some (J.str "interval") ∧
          (∃ g, pyIntOfJ ((dGet settings "days").getD (J.num 1)) = .ok g) ∧
          ∃ ts, dGet settings "times" = some (J.arr ts)))) →
      ∃ ps, reschedule_all f now = .ok ps) := by
  constructor
  · intro f now ps cfg settings name s ts gap hre hcfg hname hset hmode hgap hts
      hmem hclock
    obtain ⟨hw, hno⟩ := fixed_time_skipped_lemma f now ps cfg settings name s ts gap
      hre hcfg hname hset hmode hgap hts hmem hclock
    refine ⟨hw, hno, ?_⟩
    intro name' s' settings' ts' hh mm gap' hname' hset' hmode' hgap' hts' hmem' hclock'
    exact ⟨⟨name' ++ "_" ++ s', name', .fixedDays gap' (anchorOf now hh mm)⟩,
      fixed_trigger_created f now ps cfg settings' name' s' ts' hh mm gap' hre hcfg
        hname' hset' hmode' hgap' hts' hmem' hclock', rfl, rfl, rfl⟩
  · intro f now cfg hcfg hfeeds
    obtain ⟨ps, hps⟩ := planConfig_ok cfg now hfeeds
    refine ⟨ps, ?_⟩
    unfold reschedule_all
    rw [hcfg, okBind]
    exact hps

/-- Witness for C6: the malformed string "25:99" in dota's fixed times is
skipped with one warning while the well-formed "08:00" still yields its
trigger and planning completes. -/
theorem malformed_time_skipped_witness :
    (reschedule_all (File.json (J.obj [("dota", J.obj
        [("mode", J.str "fixed"),
         ("times", J.arr [J.str "25:99", J.str "08:00"])])])) ⟨0, 0⟩
      = .ok ⟨[⟨"dota_08:00", "dota", .fixedDays 1 ⟨0, 480⟩⟩,
              ⟨"weather_interval", "weather", .interval 30⟩,
              ⟨"fitness_interval", "fitness", .interval 60⟩,
              ⟨"energy_interval", "energy", .interval 60⟩],
             [("dota", J.str "25:99")]⟩) ∧
    ("dota" ∈ jobNames) ∧
    (parseClock "25:99" = none) ∧
    (("dota", J.str "25:99")
        ∈ (PlanState.mk [⟨"dota_08:00", "dota", .fixedDays 1 ⟨0, 480⟩⟩,
              ⟨"weather_interval", "weather", .interval 30⟩,
              ⟨"fitness_interval", "fitness", .interval 60⟩,
              ⟨"energy_interval", "energy", .interval 60⟩]
             [("dota", J.str "25:99")]).warnings ∧
      (∀ tr ∈ (PlanState.mk [⟨"dota_08:00", "dota", .fixedDays 1 ⟨0, 480⟩⟩,
              ⟨"weather_interval", "weather", .interval 30⟩,
              ⟨"fitness_interval", "fitness", .interval 60⟩,
              ⟨"energy_interval", "energy", .interval 60⟩]
             [("dota", J.str "25:99")]).triggers,
        tr.id ≠ "dota" ++ "_" ++ "25:99")) := by
  refine ⟨rfl, by decide, rfl, ?_⟩
  have hfull := (malformed_time_skipped.1
    (File.json (J.obj [("dota", J.obj
      [("mode", J.str "fixed"), ("times", J.arr [J.str "25:99", J.str "08:00"])])]))
    ⟨0, 0⟩ _
    [("dota", J.obj [("mode", J.str "fixed"),
        ("times", J.arr [J.str "25:99", J.str "08:00"]), ("enabled", J.bool false),
        ("interval", J.num 15), ("days", J.num 1)]),
     ("weather", J.obj [("enabled", J.bool false), ("mode", J.str "interval"),
        ("interval", J.num 30), ("times", J.arr [J.str "10:00", J.str "14:00"]),
        ("days", J.num 1)]),
     ("fitness", J.obj [("enabled", J.bool false), ("mode", J.str "interval"),
        ("interval", J.num 60), ("times", J.arr [J.str "22:00"]), ("days", J.num 1)]),
     ("energy", J.obj [("enabled", J.bool false), ("mode", J.str "interval"),
        ("interval", J.num 60), ("times", J.arr [J.str "08:00"]), ("days", J.num 3)]),
     ("system", J.obj [("gateway_ip", J.str "192.168.220.206"),
        ("store_code", J.str "")])]
    [("mode", J.str "fixed"), ("times", J.arr [J.str "25:99", J.str "08:00"]),
     ("enabled", J.bool false), ("interval", J.num 15), ("days", J.num 1)]
    "dota" "25:99" [J.str "25:99", J.str "08:00"] 1
    rfl rfl (by decide) rfl
    (by
      intro h
      have h2 : (some (J.str "fixed") : Option J) = some (J.str "interval") := h
      injection h2 with h3
      injection h3 with h4
      exact absurd h4 (by decide))
    rfl rfl (List.mem_cons_self _ _) rfl)
  exact ⟨hfull.1, hfull.2.1⟩

/-- C4 counterexample: the full schedule produced by `reschedule_all` is
NOT a pure function of the stored configuration alone.  With one feed in
fixed-times mode at "08:00", planning at minute 0 of a day anchors the
trigger at that day's 08:00, while planning at minute 600 (10:00) of the
same day anchors it at the next day's 08:00: the wall clock read by
`datetime.now()` leaks into the trigger's `start_date`. -/
theorem plan_time_dependent_cex :
    (reschedule_all cexCfgFile ⟨0, 0⟩).map PlanState.triggers
      ≠ (reschedule_all cexCfgFile ⟨0, 600⟩).map PlanState.triggers := by
  intro h
  have e1 : (reschedule_all cexCfgFile ⟨0, 0⟩).map PlanState.triggers
      = Except.ok [⟨"dota_08:00", "dota", .fixedDays 1 ⟨0, 480⟩⟩,
          ⟨"weather_interval", "weather", .interval 30⟩,
          ⟨"fitness_interval", "fitness", .interval 60⟩,
          ⟨"energy_interval", "energy", .interval 60⟩] := rfl
  have e2 : (reschedule_all cexCfgFile ⟨0, 600⟩).map PlanState.triggers
      = Except.ok [⟨"dota_08:00", "dota", .fixedDays 1 ⟨1, 480⟩⟩,
          ⟨"weather_interval", "weather", .interval 30⟩,
          ⟨"fitness_interval", "fitness", .interval 60⟩,
          ⟨"energy_interval", "energy", .interval 60⟩] := rfl
  rw [e1, e2] at h
  injection h with h2
  exact absurd h2 (by decide)

/-- C4 (amended): rescheduling is deterministic in the configuration up
to trigger anchoring.  For any stored configuration file and any two
planning instants, `reschedule_all` either fails at both instants or
succeeds at both with the same job identifiers in the same order and the
same skipped-time warnings; only the `start_date` anchors inside the
firing rules may differ.  In particular no other ambient state
influences which jobs exist. -/
theorem plan_ids_config_only (f : File) (now1 now2 : DT) :
    (reschedule_all f now1).map (fun ps => (ps.triggers.map Trigger.id, ps.warnings))
      = (reschedule_all f now2).map
          (fun ps => (ps.triggers.map Trigger.id, ps.warnings)) := by
  unfold reschedule_all
  cases hcfg : load_config f with
  | error e => rfl
  | ok cfg =>
      rw [okBind, okBind]
      exact planNames_rel now1 now2 cfg jobNames ⟨[], []⟩ ⟨[], []⟩ rfl rfl

end EslHub
